import Mathlib

/-!
Verification development for the Montecarlo tournament simulator.

The Python sources are embedded shallowly:
* machine floats drawn from the CSV stream become `ℚ` (every comparison the
  code performs on them is order/equality, faithfully represented);
* Python `int` values become `ℤ` (or `ℕ` where the code only ever holds
  non-negative counters);
* code that can raise (`IndexError` on an exhausted stream, `ValueError` /
  `IndexError` on failed list lookups) returns `Option`, with `none` for any
  raised exception;
* object references (`shot.player`, `luck_value.player`, ...) are embedded as
  record snapshots; the program only ever reads the immutable fields
  (`name`, `team`, `is_male`) through those references, and every identity
  based lookup (`list.index`, `filter(... name ...)[0]`) is embedded as a
  lookup by `name`, which agrees with Python's object identity because the
  simulation creates ten players with pairwise distinct names.
-/

namespace Montecarlo

/-! ## Data model (`data_models.py`) -/

structure Team where
  name : String
deriving DecidableEq, Repr

structure Player where
  name : ℕ
  team : Team
  is_male : Bool
  original_endurance : ℤ
  experience : ℤ
  total_points : ℤ
deriving DecidableEq, Repr

/-- The four shot categories; the Python code stores them as the strings
"NS", "LS", "AS", "ES". -/
inductive ShotType where
  | NS | LS | AS | ES
deriving DecidableEq, Repr

structure Shot where
  player : Player
  score : ℤ
  shot_number : ℕ
  type : ShotType
deriving DecidableEq, Repr

structure LuckValue where
  player : Player
  value : ℚ
deriving DecidableEq, Repr

structure EnduranceValue where
  player : Player
  value : ℤ
deriving DecidableEq, Repr

structure Round where
  round_number : ℕ
  shots : List Shot
  luck_values : List LuckValue
  endurance_values : List EnduranceValue
  winner_player : Player
  winner_team : Option Team
deriving DecidableEq, Repr

def teamA : Team := ⟨"Team A"⟩

def teamB : Team := ⟨"Team B"⟩

/-- `generate_teams` in `model.py`. -/
def teams : List Team := [teamA, teamB]

/-! ## Python helpers -/

/-- Python `max` over a list; raises (here: `none`) on the empty list. -/
def py_max {α : Type} [LinearOrder α] : List α → Option α
  | [] => none
  | x :: xs => some (xs.foldl max x)

/-- Python `min` over a list; raises (here: `none`) on the empty list. -/
def py_min {α : Type} [LinearOrder α] : List α → Option α
  | [] => none
  | x :: xs => some (xs.foldl min x)

theorem foldl_max_init_le {α : Type} [LinearOrder α] :
    ∀ (xs : List α) (a : α), a ≤ xs.foldl max a := by
  intro xs
  induction xs with
  | nil => intro a; exact le_refl a
  | cons x xs ih =>
      intro a
      exact le_trans (le_max_left a x) (ih (max a x))

theorem foldl_max_mem_le {α : Type} [LinearOrder α] :
    ∀ (xs : List α) (a y : α), y ∈ xs → y ≤ xs.foldl max a := by
  intro xs
  induction xs with
  | nil => intro a y hy; cases hy
  | cons x xs ih =>
      intro a y hy
      rcases List.mem_cons.mp hy with h | h
      · subst h
        exact le_trans (le_max_right a y) (foldl_max_init_le xs (max a y))
      · exact ih (max a x) y h

theorem foldl_max_mem {α : Type} [LinearOrder α] :
    ∀ (xs : List α) (a : α), xs.foldl max a = a ∨ xs.foldl max a ∈ xs := by
  intro xs
  induction xs with
  | nil => intro a; exact Or.inl rfl
  | cons x xs ih =>
      intro a
      rcases ih (max a x) with h | h
      · rcases max_cases a x with ⟨he, _⟩ | ⟨he, _⟩
        · exact Or.inl (by rw [List.foldl_cons, h, he])
        · exact Or.inr (by rw [List.foldl_cons, h, he]; exact List.mem_cons_self x xs)
      · exact Or.inr (List.mem_cons_of_mem x h)

theorem py_max_le {α : Type} [LinearOrder α] {l : List α} {mx : α}
    (h : py_max l = some mx) : ∀ y ∈ l, y ≤ mx := by
  cases l with
  | nil => cases h
  | cons x xs =>
      intro y hy
      have hmx : xs.foldl max x = mx := by
        simpa [py_max] using h
      rcases List.mem_cons.mp hy with h' | h'
      · subst h'; rw [← hmx]; exact foldl_max_init_le xs y
      · rw [← hmx]; exact foldl_max_mem_le xs x y h'

theorem py_max_mem {α : Type} [LinearOrder α] {l : List α} {mx : α}
    (h : py_max l = some mx) : mx ∈ l := by
  cases l with
  | nil => cases h
  | cons x xs =>
      have hmx : xs.foldl max x = mx := by
        simpa [py_max] using h
      rcases foldl_max_mem xs x with h' | h'
      · rw [← hmx, h']; exact List.mem_cons_self x xs
      · rw [← hmx]; exact List.mem_cons_of_mem x h'

theorem py_max_isSome {α : Type} [LinearOrder α] {l : List α}
    (h : l ≠ []) : ∃ mx, py_max l = some mx := by
  cases l with
  | nil => exact absurd rfl h
  | cons x xs => exact ⟨xs.foldl max x, rfl⟩

theorem foldl_min_le_init {α : Type} [LinearOrder α] :
    ∀ (xs : List α) (a : α), xs.foldl min a ≤ a := by
  intro xs
  induction xs with
  | nil => intro a; exact le_refl a
  | cons x xs ih =>
      intro a
      exact le_trans (ih (min a x)) (min_le_left a x)

theorem foldl_min_le_mem {α : Type} [LinearOrder α] :
    ∀ (xs : List α) (a y : α), y ∈ xs → xs.foldl min a ≤ y := by
  intro xs
  induction xs with
  | nil => intro a y hy; cases hy
  | cons x xs ih =>
      intro a y hy
      rcases List.mem_cons.mp hy with h | h
      · subst h
        exact le_trans (foldl_min_le_init xs (min a y)) (min_le_right a y)
      · exact ih (min a x) y h

theorem py_min_le {α : Type} [LinearOrder α] {l : List α} {mn : α}
    (h : py_min l = some mn) : ∀ y ∈ l, mn ≤ y := by
  cases l with
  | nil => cases h
  | cons x xs =>
      intro y hy
      have hmn : xs.foldl min x = mn := by
        simpa [py_min] using h
      rcases List.mem_cons.mp hy with h' | h'
      · subst h'; rw [← hmn]; exact foldl_min_le_init xs y
      · rw [← hmn]; exact foldl_min_le_mem xs x y h'

/-! ## `numbs_aux.py`: the linear congruential generator -/

/-- A recurrence configuration `{k, g, X0, c}` as read from the
configuration store. -/
structure Conf where
  k : ℕ
  g : ℕ
  X0 : ℕ
  c : ℕ
deriving DecidableEq, Repr

/-- The loop of `generate_numbers`: starting from `x`, produce `count`
successive values `X_i = (a * X_{i-1} + c) % m`. -/
def lcg_steps (a c m : ℕ) : ℕ → ℕ → List ℕ
  | _, 0 => []
  | x, count + 1 =>
      let x' := (a * x + c) % m
      x' :: lcg_steps a c m x' count

/-- `generate_numbers` (`numbs_aux.py`): `a = 1 + 2k`, `m = 2^g`, run the
recurrence for `m // 2` iterations and normalize each value as
`R_i = X_i / (m - 1)`. -/
def generate_numbers (conf : Conf) : List ℚ :=
  let a := 1 + 2 * conf.k
  let m := 2 ^ conf.g
  (lcg_steps a conf.c m conf.X0 (m / 2)).map (fun x : ℕ => (x : ℚ) / ((m - 1 : ℕ) : ℚ))

theorem lcg_steps_lt (a c m : ℕ) (hm : 0 < m) :
    ∀ (count x : ℕ), ∀ y ∈ lcg_steps a c m x count, y < m := by
  intro count
  induction count with
  | zero => intro x y hy; cases hy
  | succ n ih =>
      intro x y hy
      rcases List.mem_cons.mp hy with h | h
      · subst h; exact Nat.mod_lt _ hm
      · exact ih _ y h

/-! ## `numbs_aux.py`: interval partitioning for the chi-square test -/

open Classical in
/-- Python `int()` on a real value (truncation toward zero). -/
noncomputable def pyIntR (x : ℝ) : ℤ := if x < 0 then ⌈x⌉ else ⌊x⌋

/-- `k = int(1 + 3.322 * np.log10(len(nums)))` in `generate_intervals` —
note `int()` truncates, it does not round up. -/
noncomputable def intervals_k (n : ℕ) : ℤ :=
  pyIntR (1 + 3.322 * Real.logb 10 n)

/-- The spec's stated bin-count formula, `⌈1 + 3.322·log10 n⌉`, kept for
comparison with the code's `intervals_k`. -/
noncomputable def intervals_k_ceil (n : ℕ) : ℤ :=
  ⌈(1 : ℝ) + 3.322 * Real.logb 10 n⌉

/-- `np.linspace lo hi num`: `num` evenly spaced points from `lo` to
`hi`. -/
def linspace (lo hi : ℚ) (num : ℕ) : List ℚ :=
  (List.range num).map (fun i : ℕ => lo + (hi - lo) * (i : ℚ) / ((num - 1 : ℕ) : ℚ))

/-- How many values `pd.cut` places into one bin: `(lo, hi]`, except that
the lowest bin is closed on the left (`include_lowest=True`). -/
def bin_count (nums : List ℚ) (lo hi : ℚ) (first : Bool) : ℕ :=
  (nums.filter (fun x =>
    decide ((if first then lo ≤ x else lo < x) ∧ x ≤ hi))).length

/-- The binning of `generate_intervals` at a given bin count `k`:
`lims = linspace(min(nums), max(nums), k + 1)` gives `k` bins, returned
with their frequencies.  `pd.cut` is called with its default
`duplicates='raise'`, so when the bin edges are not pairwise distinct (a
degenerate `linspace` with `min = max`) it raises
`ValueError: Bin edges must be unique` — `none` here.
`pandas.value_counts` sorts its table by frequency; no claim depends on
the row order, so the embedding keeps natural bin order.
`min(nums)` / `max(nums)` raise on an empty list. -/
def generate_intervals_k (k : ℕ) (nums : List ℚ) :
    Option (List (ℚ × ℚ) × List ℕ) :=
  match py_min nums, py_max nums with
  | some lo, some hi =>
      if (linspace lo hi (k + 1)).Nodup then
        some ((List.range k).map (fun i =>
            ((linspace lo hi (k + 1)).getD i 0,
             (linspace lo hi (k + 1)).getD (i + 1) 0)),
          (List.range k).map (fun i =>
            bin_count nums ((linspace lo hi (k + 1)).getD i 0)
              ((linspace lo hi (k + 1)).getD (i + 1) 0) (decide (i = 0))))
      else none
  | _, _ => none

/-- `generate_intervals` (`numbs_aux.py`). -/
noncomputable def generate_intervals (nums : List ℚ) :
    Option (List (ℚ × ℚ) × List ℕ) :=
  generate_intervals_k (intervals_k nums.length).toNat nums

/-- The expected-frequency list built by `chi_2_test`:
`[n / len(intervals) for i in range(0, len(intervals))]`. -/
noncomputable def chi_2_expected (nums : List ℚ) : Option (List ℚ) :=
  (generate_intervals nums).map (fun d =>
    (List.range d.1.length).map (fun _ => (nums.length : ℚ) / (d.1.length : ℚ)))

/-! ## `model.py`: stream state -/

/-- The stream-consumption state of the `Model` class: the loaded numbers
and the cursor `current_number`. -/
structure Model where
  numbers : List ℚ
  current : ℕ
deriving DecidableEq, Repr

/-- `get_pseudorandom_number`: raises `IndexError` (`none`) when
`current_number >= len(numbers)`, otherwise returns `numbers[current_number]`
and advances the cursor. -/
def get_pseudorandom_number (m : Model) : Option (ℚ × Model) :=
  match m.numbers[m.current]? with
  | none => none
  | some number => some (number, { m with current := m.current + 1 })

/-! ## `model.py`: players, shots, endurance -/

/-- `calculate_score_male`: score distribution for male players. -/
def calculate_score_male (score : ℚ) : ℤ :=
  if score ≤ 15 / 100 then 10
  else if score ≤ 45 / 100 then 9
  else if score ≤ 92 / 100 then 8
  else 0

/-- `calculate_score_female`: score distribution for female players. -/
def calculate_score_female (score : ℚ) : ℤ :=
  if score ≤ 25 / 100 then 10
  else if score ≤ 65 / 100 then 9
  else if score ≤ 95 / 100 then 8
  else 0

/-- `do_shot`: consume one stream number and produce a scored shot of the
given type (default `"NS"`). -/
def do_shot (m : Model) (player : Player) (n_shot : ℕ)
    (ty : ShotType := ShotType.NS) : Option (Shot × Model) :=
  match get_pseudorandom_number m with
  | none => none
  | some (num, m') =>
      let score := if player.is_male then calculate_score_male num
                   else calculate_score_female num
      some (⟨player, score, n_shot, ty⟩, m')

/-- `get_random_reduction`: one stream draw mapped to 1, 2 or 3. -/
def get_random_reduction (m : Model) : Option (ℤ × Model) :=
  match get_pseudorandom_number m with
  | none => none
  | some (rand, m') =>
      if rand < 33 / 100 then some (1, m')
      else if rand < 66 / 100 then some (2, m')
      else some (3, m')

/-- The lookup `list(filter(lambda value: value.player.name == player.name,
...))[0]` used on endurance-value lists; `none` when the filtered list is
empty (Python raises `IndexError`). -/
def findEnduranceValue (evs : List EnduranceValue) (pname : ℕ) :
    Option EnduranceValue :=
  (evs.filter (fun v => decide (v.player.name = pname))).head?

/-- Lines 658-666 of `model.py`: the endurance spent before the current
round — against `original_endurance` when exactly one round has been played,
otherwise against the prior-to-previous round's stored endurance. -/
def endurance_spent_of (p : Player) (rounds : List Round)
    (last_endurance : EnduranceValue) : Option ℤ :=
  if rounds.length = 1 then
    some (p.original_endurance - last_endurance.value)
  else
    match rounds[rounds.length - 2]? with
    | none => none
    | some prevRound =>
        match findEnduranceValue prevRound.endurance_values p.name with
        | none => none
        | some previous_endurance =>
            some (previous_endurance.value - last_endurance.value)

/-- `generatePlayer_endurance`: first round uses `original_endurance`;
otherwise experienced players (`experience >= 19`) get
`original_endurance - 1`, and all others recover
`previous + max(0, spent - random_reduction)`; the result is clamped at 0
by the final `max(0, endurance)`. -/
def generatePlayer_endurance (m : Model) (p : Player) (rounds : List Round) :
    Option (EnduranceValue × Model) :=
  match rounds.getLast? with
  | none => some (⟨p, max 0 p.original_endurance⟩, m)
  | some lastRound =>
      match findEnduranceValue lastRound.endurance_values p.name with
      | none => none
      | some last_endurance =>
          match endurance_spent_of p rounds last_endurance with
          | none => none
          | some endurance_spent =>
              if 19 ≤ p.experience then
                some (⟨p, max 0 (p.original_endurance - 1)⟩, m)
              else
                match get_random_reduction m with
                | none => none
                | some (random_reduction, m') =>
                    some (⟨p, max 0 (last_endurance.value +
                        max 0 (endurance_spent - random_reduction))⟩, m')

/-! ## `model.py`: the round engine (`generate_shots_and_endurance_values`) -/

/-- The per-player dictionaries `{"player": ..., "points": ...}` used for
round-local tallies. -/
structure PtsEntry where
  player : Player
  points : ℤ
deriving DecidableEq, Repr

/-- `player.total_points += s` through an object reference: the roster
entry carrying the referenced name is updated (player names are unique in
the simulation, so this is Python's in-place update of the one object). -/
def add_points (roster : List Player) (pname : ℕ) (s : ℤ) : List Player :=
  roster.map (fun q =>
    if q.name = pname then { q with total_points := q.total_points + s } else q)

/-- Python `list.index(player)` (identity lookup, embedded by name). -/
def py_index : List Player → ℕ → Option ℕ
  | [], _ => none
  | p :: rest, nm =>
      if p.name = nm then some 0 else (py_index rest nm).map (· + 1)

/-- The `while current_endurance >= 5` loop of phase 1: one NS shot per
5 points of endurance.  The loop is embedded with explicit fuel; each
iteration lowers the endurance by 5, so the caller's fuel
`endurance.toNat + 1` can never run out before the guard fails. -/
def normal_shots_loop : ℕ → Model → Player → ℤ → List Shot → ℤ →
    Option (Model × Player × List Shot × ℤ)
  | 0, _, _, _, _, _ => none
  | fuel + 1, m, player, current_endurance, shots, pts =>
    if 5 ≤ current_endurance then
      match do_shot m player (shots.length + 1) with
      | none => none
      | some (shot, m') =>
          normal_shots_loop fuel m'
            { player with total_points := player.total_points + shot.score }
            (current_endurance - 5) (shots ++ [shot]) (pts + shot.score)
    else
      some (m, player, shots, pts)

/-- Phase 1 of `generate_shots_and_endurance_values`: per roster player (in
roster order), compute the endurance and fire normal shots. Returns the
updated stream state, the updated roster, the accumulated shot list, the
endurance values and the NS-only tallies `points_total_rd`. -/
def phase1_loop : Model → List Player → List Round → List Shot →
    List EnduranceValue → List PtsEntry →
    Option (Model × List Player × List Shot × List EnduranceValue × List PtsEntry)
  | m, [], _, shots, evs, pts => some (m, [], shots, evs, pts)
  | m, player :: rest, rounds, shots, evs, pts =>
    match generatePlayer_endurance m player rounds with
    | none => none
    | some (endurance, m1) =>
        match normal_shots_loop (endurance.value.toNat + 1) m1 player
            endurance.value shots 0 with
        | none => none
        | some (m2, player', shots', pts_p) =>
            match phase1_loop m2 rest rounds shots'
                (evs ++ [endurance]) (pts ++ [⟨player, pts_p⟩]) with
            | none => none
            | some (m3, rest', shotsF, evsF, ptsF) =>
                some (m3, player' :: rest', shotsF, evsF, ptsF)

/-- Phase 3's streak detection: names that were a per-team luckiest player
in each of the last 3 completed rounds.  Python iterates `set(names_list)`,
whose order is unspecified; the embedding uses first-occurrence order
(`dedup`), which fixes one of the permitted orders. -/
def streak_lucky_names (rounds : List Round) : List ℕ :=
  if 3 ≤ rounds.length then
    let recent := rounds.filter (fun r =>
      decide (rounds.length + 1 - r.round_number ≤ 3))
    let names_list := recent.foldl
      (fun acc r => acc ++ r.luck_values.map (fun lv => lv.player.name)) []
    names_list.dedup.filter (fun nm =>
      decide ((names_list.filter (fun x => decide (x = nm))).length = 3))
  else []

/-- Phases 2-3: the list of players receiving an LS shot — the two
current-round luckiest players (roster order), then one extra entry per
3-round streak (looked up in the roster; a failed lookup raises). Accessing
`luck_values[0]`/`luck_values[1]` raises when fewer than two luck values
were passed. -/
def lucky_players (players : List Player) (luck_values : List LuckValue)
    (rounds : List Round) : Option (List Player) :=
  match luck_values[0]?, luck_values[1]? with
  | some lv0, some lv1 =>
      let base := players.filter (fun p =>
        decide (p.name = lv0.player.name) || decide (p.name = lv1.player.name))
      match (streak_lucky_names rounds).mapM
          (fun nm => (players.filter (fun p => decide (p.name = nm))).head?) with
      | none => none
      | some extra => some (base ++ extra)
  | _, _ => none

/-- The `for player in luckiest_players` LS-shot loop (also parameterized
by the shot type for uniformity). -/
def special_shots_loop : Model → List Player → List Player → ShotType →
    List Shot → Option (Model × List Player × List Shot)
  | m, roster, [], _, shots => some (m, roster, shots)
  | m, roster, p :: rest, ty, shots =>
      match do_shot m p (shots.length + 1) ty with
      | none => none
      | some (shot, m') =>
          special_shots_loop m' (add_points roster p.name shot.score) rest ty
            (shots ++ [shot])

/-- Phase 4's per-player test: luckiest in both of the last two rounds. -/
def consecutive_luck (last_two : List Round) (p : Player) : Bool :=
  last_two.all (fun r => r.luck_values.any (fun lv =>
    decide (lv.player.name = p.name)))

/-- Phase 4: one AS shot for each roster player who was a per-team
luckiest player in both of the last two completed rounds. -/
def advantage_shots_loop : Model → List Player → List Player → List Round →
    List Shot → Option (Model × List Player × List Shot)
  | m, roster, [], _, shots => some (m, roster, shots)
  | m, roster, p :: rest, last_two, shots =>
      if consecutive_luck last_two p then
        match do_shot m p (shots.length + 1) ShotType.AS with
        | none => none
        | some (shot, m') =>
            advantage_shots_loop m' (add_points roster p.name shot.score) rest
              last_two (shots ++ [shot])
      else
        advantage_shots_loop m roster rest last_two shots

/-- `len(set(points)) == len(list)`: the running tallies are pairwise
distinct. -/
def all_points_distinct (l : List PtsEntry) : Bool :=
  decide ((l.map (fun e => e.points)).dedup.length = l.length)

/-- One pass of the tie-break `while` loop: every tied player receives one
ES shot and the running tallies are updated. -/
def es_pass : Model → List Player → List PtsEntry → List Shot →
    Option (Model × List Player × List PtsEntry × List Shot)
  | m, roster, [], shots => some (m, roster, [], shots)
  | m, roster, e :: rest, shots =>
      match do_shot m e.player (shots.length + 1) ShotType.ES with
      | none => none
      | some (shot, m') =>
          match es_pass m' (add_points roster e.player.name shot.score) rest
              (shots ++ [shot]) with
          | none => none
          | some (m2, roster2, rest2, shots2) =>
              some (m2, roster2, ⟨e.player, e.points + shot.score⟩ :: rest2, shots2)

/-- The tie-break `while` loop.  Each pass consumes at least one stream
number (the tied list is nonempty), so with fuel `remaining + 1` the fuel
can never run out before the stream itself is exhausted inside `do_shot`;
both outcomes are the Python `IndexError`. -/
def es_loop : ℕ → Model → List Player → List PtsEntry → List Shot →
    Option (Model × List Player × List PtsEntry × List Shot)
  | 0, _, _, _, _ => none
  | fuel + 1, m, roster, tied, shots =>
      if all_points_distinct tied then some (m, roster, tied, shots)
      else
        match es_pass m roster tied shots with
        | none => none
        | some (m', roster', tied', shots') => es_loop fuel m' roster' tied' shots'

/-- `generate_shots_and_endurance_values`: the five phases in source
order. -/
def generate_shots_and_endurance_values (m : Model) (players : List Player)
    (luck_values : List LuckValue) (rounds : List Round) :
    Option (List Shot × List EnduranceValue × Model × List Player) :=
  match phase1_loop m players rounds [] [] [] with
  | none => none
  | some (m1, players1, shots1, endurance_values, points_total_rd) =>
      match lucky_players players1 luck_values rounds with
      | none => none
      | some luckiest_players =>
          match special_shots_loop m1 players1 luckiest_players ShotType.LS shots1 with
          | none => none
          | some (m2, players2, shots2) =>
              match (if 2 ≤ rounds.length then
                      advantage_shots_loop m2 players2 players2
                        (rounds.drop (rounds.length - 2)) shots2
                    else some (m2, players2, shots2)) with
              | none => none
              | some (m3, players3, shots3) =>
                  match py_max (points_total_rd.map (fun e => e.points)) with
                  | none => none
                  | some max_pts =>
                      let max_pst_list := points_total_rd.filter
                        (fun e => decide (e.points = max_pts))
                      if 1 < max_pst_list.length then
                        match es_loop (m3.numbers.length - m3.current + 1) m3
                            players3 max_pst_list shots3 with
                        | none => none
                        | some (m4, players4, _, shots4) =>
                            some (shots4, endurance_values, m4, players4)
                      else
                        some (shots3, endurance_values, m3, players3)

/-! ## `model.py`: round and game winners -/

/-- `points_total_rd[i]["points"] += s`. -/
def update_pts_at : List PtsEntry → ℕ → ℤ → List PtsEntry
  | [], _, _ => []
  | e :: rest, 0, s => { e with points := e.points + s } :: rest
  | e :: rest, n + 1, s => e :: update_pts_at rest n s

/-- The `for shot in shots` loop of `calculate_winner`: team points count
NS/LS/AS shots; individual points count NS/ES/AS shots, added at the index
`self.players.index(shot.player)` (a failed lookup raises). -/
def calculate_winner_loop : List Player → List Shot → ℤ → ℤ → List PtsEntry →
    Option (ℤ × ℤ × List PtsEntry)
  | _, [], team_a_points, team_b_points, pts =>
      some (team_a_points, team_b_points, pts)
  | players, shot :: rest, team_a_points, team_b_points, pts =>
      let ta := if shot.player.team.name = "Team A" ∧
          (shot.type = ShotType.NS ∨ shot.type = ShotType.LS ∨ shot.type = ShotType.AS)
        then team_a_points + shot.score else team_a_points
      let tb := if shot.player.team.name = "Team B" ∧
          (shot.type = ShotType.NS ∨ shot.type = ShotType.LS ∨ shot.type = ShotType.AS)
        then team_b_points + shot.score else team_b_points
      if shot.type = ShotType.NS ∨ shot.type = ShotType.ES ∨ shot.type = ShotType.AS then
        match py_index players shot.player.name with
        | none => none
        | some i => calculate_winner_loop players rest ta tb (update_pts_at pts i shot.score)
      else
        calculate_winner_loop players rest ta tb pts

/-- `list(filter(lambda player: player.name == winner.name, players))[0]
.experience += 3`: bump the first name match; raises when absent. -/
def add_experience : List Player → ℕ → Option (List Player)
  | [], _ => none
  | p :: rest, nm =>
      if p.name = nm then some ({ p with experience := p.experience + 3 } :: rest)
      else (add_experience rest nm).map (fun l => p :: l)

/-- `calculate_winner`: team scores from NS/LS/AS shots, individual scores
from NS/ES/AS shots, winner = first tally at the maximum, winning team
`None` on an exact tie, and `+3` experience to the winner. -/
def calculate_winner (players : List Player) (shots : List Shot) :
    Option (Player × Option Team × List Player) :=
  match calculate_winner_loop players shots 0 0
      (players.map (fun p => ⟨p, 0⟩)) with
  | none => none
  | some (team_a_points, team_b_points, points_total_rd) =>
      match py_max (points_total_rd.map (fun e => e.points)) with
      | none => none
      | some max_individual_points =>
          match (points_total_rd.filter
              (fun e => decide (e.points = max_individual_points))).head? with
          | none => none
          | some w =>
              let winner_player := w.player
              let winner_team : Option Team :=
                if team_a_points ≠ team_b_points then
                  (teams.filter (fun tm => decide (tm.name =
                    (if team_a_points > team_b_points then "Team A" else "Team B")))).head?
                else none
              match add_experience players winner_player.name with
              | none => none
              | some players' => some (winner_player, winner_team, players')

/-- One iteration of the per-round loop in `start_simulation`: shots and
endurance values, then the round winner, then the `Round` record
(`round_number = j + 1`). -/
def playRound (m : Model) (players : List Player) (luck_values : List LuckValue)
    (rounds : List Round) : Option (Round × Model × List Player) :=
  match generate_shots_and_endurance_values m players luck_values rounds with
  | none => none
  | some (shots, endurance_values, m1, players1) =>
      match calculate_winner players1 shots with
      | none => none
      | some (winner_player, winner_team, players2) =>
          some (⟨rounds.length + 1, shots, luck_values, endurance_values,
            winner_player, winner_team⟩, m1, players2)

/-- The per-game loop of `start_simulation`, one entry of `lvs` per round
(the luck values are produced by `generate_players_luck_values`, whose
Box-Muller numerics the claims do not touch). -/
def playRounds : Model → List Player → List (List LuckValue) → List Round →
    Option (Model × List Player × List Round)
  | m, players, [], rounds => some (m, players, rounds)
  | m, players, lv :: rest, rounds =>
      match playRound m players lv rounds with
      | none => none
      | some (rd, m1, players1) => playRounds m1 players1 rest (rounds ++ [rd])

/-- The team-points loop of `calculate_game_winner` over one round's
shots. -/
def shots_team_points : List Shot → ℤ → ℤ → ℤ × ℤ
  | [], team_a_points, team_b_points => (team_a_points, team_b_points)
  | s :: rest, team_a_points, team_b_points =>
      shots_team_points rest
        (if s.player.team.name = "Team A" ∧
            (s.type = ShotType.NS ∨ s.type = ShotType.LS ∨ s.type = ShotType.AS)
          then team_a_points + s.score else team_a_points)
        (if s.player.team.name = "Team B" ∧
            (s.type = ShotType.NS ∨ s.type = ShotType.LS ∨ s.type = ShotType.AS)
          then team_b_points + s.score else team_b_points)

def game_team_points_loop : List Round → ℤ → ℤ → ℤ × ℤ
  | [], team_a_points, team_b_points => (team_a_points, team_b_points)
  | rd :: rest, team_a_points, team_b_points =>
      let p := shots_team_points rd.shots team_a_points team_b_points
      game_team_points_loop rest p.1 p.2

/-- The `{"player": ..., "amount": ...}` counters of
`calculate_game_winner`. -/
structure CountEntry where
  player : Player
  amount : ℕ
deriving DecidableEq, Repr

/-- Bump the first entry with the player's name, appending `{player, 1}`
when none exists yet. -/
def bump_count : List CountEntry → Player → List CountEntry
  | [], p => [⟨p, 1⟩]
  | e :: rest, p =>
      if e.player.name = p.name then { e with amount := e.amount + 1 } :: rest
      else e :: bump_count rest p

/-- The counting loop of `calculate_game_winner`: luck-value appearances
and round winners. -/
def collect_winners : List Round → List CountEntry → List CountEntry →
    List CountEntry × List CountEntry
  | [], lks_winners, rds_winners => (lks_winners, rds_winners)
  | rd :: rest, lks_winners, rds_winners =>
      let lks' := rd.luck_values.foldl (fun acc lv => bump_count acc lv.player) lks_winners
      collect_winners rest lks' (bump_count rds_winners rd.winner_player)

/-- `calculate_game_winner`: total team points over all rounds decide the
winning team (`"Team A"` only on a strictly larger total, `"Team B"`
otherwise); the game winner and luckiest player are the first players with
the most round wins / luck appearances. -/
def calculate_game_winner (rounds : List Round) :
    Option (Player × Team × Player) :=
  let p := game_team_points_loop rounds 0 0
  let max_tm_name := if p.1 > p.2 then "Team A" else "Team B"
  match (teams.filter (fun tm => decide (tm.name = max_tm_name))).head? with
  | none => none
  | some winner_team =>
      let w := collect_winners rounds [] []
      match py_max (w.2.map (fun e => e.amount)) with
      | none => none
      | some max_round_wins =>
          match (w.2.filter (fun e => decide (e.amount = max_round_wins))).head? with
          | none => none
          | some rw =>
              match py_max (w.1.map (fun e => e.amount)) with
              | none => none
              | some max_luck =>
                  match (w.1.filter (fun e => decide (e.amount = max_luck))).head? with
                  | none => none
                  | some lw => some (rw.player, winner_team, lw.player)

/-! ## Declarative score sums (the spec's formulations) -/

/-- Team score of a shot list: the sum of the scores of the shots of that
team typed NS, LS or AS (ES excluded). -/
def team_round_score (t : String) (shots : List Shot) : ℤ :=
  ((shots.filter (fun s => decide (s.player.team.name = t ∧
      (s.type = ShotType.NS ∨ s.type = ShotType.LS ∨ s.type = ShotType.AS)))).map
    Shot.score).sum

/-- Individual score of a player in a shot list: the sum of the scores of
that player's shots typed NS, ES or AS (LS excluded). -/
def individual_score (pname : ℕ) (shots : List Shot) : ℤ :=
  ((shots.filter (fun s => decide (s.player.name = pname ∧
      (s.type = ShotType.NS ∨ s.type = ShotType.ES ∨ s.type = ShotType.AS)))).map
    Shot.score).sum

/-- Game-level team score: the sum over all rounds. -/
def team_game_score (t : String) (rounds : List Round) : ℤ :=
  (rounds.map (fun r => team_round_score t r.shots)).sum

/-! ## Relations used to state the run invariants -/

/-- What one shot-generation phase may do to one player: every field is
preserved except `total_points`, which may only grow. -/
def shots_frame (p q : Player) : Prop :=
  q.name = p.name ∧ q.team = p.team ∧ q.is_male = p.is_male ∧
  q.original_endurance = p.original_endurance ∧ q.experience = p.experience ∧
  p.total_points ≤ q.total_points

/-- `shots_frame`, pointwise over a roster. -/
def roster_rel (ps qs : List Player) : Prop :=
  qs.length = ps.length ∧
  ∀ (j : ℕ) (p q : Player), ps[j]? = some p → qs[j]? = some q → shots_frame p q

/-- The run-level monotonicity relation: experiences and total points never
decrease. -/
def run_mono (ps qs : List Player) : Prop :=
  qs.length = ps.length ∧
  ∀ (j : ℕ) (p q : Player), ps[j]? = some p → qs[j]? = some q →
    p.experience ≤ q.experience ∧ p.total_points ≤ q.total_points

end Montecarlo

/-! ### Claims C3 and C6 -/

namespace Montecarlo

/-- C3: with the literal configuration `{k=3, g=4, X0=1, c=1}` (so `a = 7`,
`m = 16`), `generate_numbers` performs exactly `m/2 = 8` iterations of the
recurrence and its first two outputs are exactly `8/15` and `9/15`. -/
theorem claim_C3 :
    (generate_numbers ⟨3, 4, 1, 1⟩).length = 8 ∧
    (generate_numbers ⟨3, 4, 1, 1⟩)[0]? = some (8 / 15 : ℚ) ∧
    (generate_numbers ⟨3, 4, 1, 1⟩)[1]? = some (9 / 15 : ℚ) := by
  refine ⟨by decide, ?_, ?_⟩ <;> norm_num [generate_numbers, lcg_steps]

/-- C6 counterexample: for the configuration `{k=0, g=1, X0=0, c=1}`
(integers `k ≥ 0`, `g ≥ 1`, `X0 ≥ 0`, `c ≥ 0`), `generate_numbers` outputs
the value `1`, which does not lie in the half-open interval `[0, 1)`. -/
theorem claim_C6_cex :
    (1 : ℚ) ∈ generate_numbers ⟨0, 1, 0, 1⟩ ∧ ¬ ((1 : ℚ) < 1) := by
  constructor
  · norm_num [generate_numbers, lcg_steps]
  · exact lt_irrefl 1

/-- C6 (amended): every value produced by `generate_numbers` lies in the
closed interval `[0, 1]`; the upper bound `1` is attained (see the
counterexample), because the recurrence value `X_i` ranges over `[0, m-1]`
and is normalized by `m - 1`. -/
theorem claim_C6 (conf : Conf) (r : ℚ) (hr : r ∈ generate_numbers conf) :
    0 ≤ r ∧ r ≤ 1 := by
  unfold generate_numbers at hr
  obtain ⟨x, hx, rfl⟩ := List.mem_map.mp hr
  have hMpow : 0 < 2 ^ conf.g := Nat.pos_pow_of_pos _ (by norm_num)
  generalize hM : (2 : ℕ) ^ conf.g = M at hx hMpow ⊢
  rcases Nat.lt_or_ge M 2 with hM2 | hM2
  · -- M = 1: the loop runs M/2 = 0 times, so there are no outputs at all
    have h0 : M / 2 = 0 := by omega
    rw [h0] at hx
    cases hx
  · have hxlt : x < M := lcg_steps_lt _ _ _ hMpow _ _ x hx
    have hxle : x ≤ M - 1 := by omega
    have h1 : 1 ≤ M - 1 := by omega
    have hden : (0 : ℚ) < ((M - 1 : ℕ) : ℚ) := by exact_mod_cast h1
    constructor
    · positivity
    · rw [div_le_one hden]
      exact_mod_cast hxle

/-- Witness for C6 at the concrete configuration `{k=3, g=4, X0=1, c=1}`
and the output value `8/15`. -/
theorem claim_C6_witness :
    (0 : ℚ) ≤ 8 / 15 ∧ (8 / 15 : ℚ) ≤ 1 :=
  claim_C6 ⟨3, 4, 1, 1⟩ (8 / 15) (by norm_num [generate_numbers, lcg_steps])

/-! ### Claim C9 -/

/-- C9: `get_pseudorandom_number` raises (`none`) exactly when the cursor
has reached the count of loaded numbers; on success it returns the number
at the cursor position, leaves the loaded numbers unchanged, and advances
the cursor by exactly one (so repeated calls return the loaded numbers in
order). -/
theorem claim_C9 (m : Model) :
    (get_pseudorandom_number m = none ↔ m.numbers.length ≤ m.current) ∧
    (∀ x m', get_pseudorandom_number m = some (x, m') →
      m.numbers[m.current]? = some x ∧ m'.numbers = m.numbers ∧
      m'.current = m.current + 1) := by
  constructor
  · cases heq : m.numbers[m.current]? with
    | none =>
        simp only [get_pseudorandom_number, heq]
        simpa using List.getElem?_eq_none_iff.mp heq
    | some x =>
        simp only [get_pseudorandom_number, heq]
        constructor
        · intro h; cases h
        · intro h
          rw [List.getElem?_eq_none_iff.mpr h] at heq
          cases heq
  · intro x m' h
    cases heq : m.numbers[m.current]? with
    | none =>
        simp only [get_pseudorandom_number, heq] at h
        exact Option.noConfusion h
    | some y =>
        simp only [get_pseudorandom_number, heq, Option.some.injEq, Prod.mk.injEq] at h
        obtain ⟨hxy, hm'⟩ := h
        subst hm'
        simp [heq, hxy]

/-- Witness for C9: the concrete model `⟨[1/2], 0⟩`. -/
theorem claim_C9_witness :
    ([(1 : ℚ) / 2] : List ℚ)[(0 : ℕ)]? = some ((1 : ℚ) / 2) ∧
    ([(1 : ℚ) / 2] : List ℚ) = [(1 : ℚ) / 2] ∧ (1 : ℕ) = (0 : ℕ) + 1 := by
  exact (claim_C9 ⟨[(1 : ℚ) / 2], 0⟩).2 ((1 : ℚ) / 2) ⟨[(1 : ℚ) / 2], 1⟩ rfl

/-! ### Claims C2 and C10 -/

theorem get_random_reduction_spec (m : Model) (u : ℚ)
    (hu : m.numbers[m.current]? = some u) :
    ∃ red : ℤ, 1 ≤ red ∧ red ≤ 3 ∧
      get_random_reduction m = some (red, { m with current := m.current + 1 }) := by
  simp only [get_random_reduction, get_pseudorandom_number, hu]
  by_cases h1 : u < 33 / 100
  · exact ⟨1, by norm_num, by norm_num, by rw [if_pos h1]⟩
  · by_cases h2 : u < 66 / 100
    · exact ⟨2, by norm_num, by norm_num, by rw [if_neg h1, if_pos h2]⟩
    · exact ⟨3, by norm_num, by norm_num, by rw [if_neg h1, if_neg h2]⟩

theorem get_random_reduction_state {m : Model} {red : ℤ} {m' : Model}
    (h : get_random_reduction m = some (red, m')) :
    m'.numbers = m.numbers ∧ m'.current = m.current + 1 := by
  unfold get_random_reduction get_pseudorandom_number at h
  cases heq : m.numbers[m.current]? with
  | none => simp only [heq] at h; exact Option.noConfusion h
  | some u =>
      simp only [heq] at h
      split at h <;>
        first
        | (injection h with h1; injection h1 with h1a h1b; subst h1b; exact ⟨rfl, rfl⟩)
        | (split at h <;>
            (injection h with h1; injection h1 with h1a h1b; subst h1b; exact ⟨rfl, rfl⟩))

/-- C2: per-round endurance. (1) On the game's first round the computed
endurance is exactly `original_endurance`, whatever the stream or any
previous game's state. (2) On a later round, a player with
`experience >= 19` gets exactly `original_endurance - 1`. (3) Otherwise the
result is the previous round's stored endurance plus
`max(0, spent - penalty)`, clamped at 0, where `spent` compares the
prior-to-previous round (or `original_endurance` on the second round) with
the previous round, and the penalty is a drawn value in `{1, 2, 3}`. -/
theorem claim_C2 :
    (∀ (m : Model) (p : Player), 0 ≤ p.original_endurance →
        generatePlayer_endurance m p [] = some (⟨p, p.original_endurance⟩, m)) ∧
    (∀ (m : Model) (p : Player) (rounds : List Round) (lastR : Round)
        (lastEv : EnduranceValue),
        rounds.getLast? = some lastR →
        findEnduranceValue lastR.endurance_values p.name = some lastEv →
        (rounds.length = 1 ∨ ∃ prevR prevEv, rounds[rounds.length - 2]? = some prevR ∧
            findEnduranceValue prevR.endurance_values p.name = some prevEv) →
        19 ≤ p.experience → 1 ≤ p.original_endurance →
        generatePlayer_endurance m p rounds =
          some (⟨p, p.original_endurance - 1⟩, m)) ∧
    (∀ (m : Model) (p : Player) (rounds : List Round) (lastR : Round)
        (lastEv : EnduranceValue) (u : ℚ),
        rounds.getLast? = some lastR →
        findEnduranceValue lastR.endurance_values p.name = some lastEv →
        p.experience < 19 →
        m.numbers[m.current]? = some u →
        (rounds.length = 1 →
          ∃ red : ℤ, 1 ≤ red ∧ red ≤ 3 ∧
            generatePlayer_endurance m p rounds =
              some (⟨p, max 0 (lastEv.value +
                  max 0 (p.original_endurance - lastEv.value - red))⟩,
                { m with current := m.current + 1 })) ∧
        (∀ prevR prevEv, rounds.length ≠ 1 →
          rounds[rounds.length - 2]? = some prevR →
          findEnduranceValue prevR.endurance_values p.name = some prevEv →
          ∃ red : ℤ, 1 ≤ red ∧ red ≤ 3 ∧
            generatePlayer_endurance m p rounds =
              some (⟨p, max 0 (lastEv.value +
                  max 0 (prevEv.value - lastEv.value - red))⟩,
                { m with current := m.current + 1 }))) := by
  refine ⟨?_, ?_, ?_⟩
  · intro m p h
    simp only [generatePlayer_endurance, List.getLast?_nil]
    rw [max_eq_right h]
  · intro m p rounds lastR lastEv hL hF hprev hexp horig
    have hspent : ∃ s, endurance_spent_of p rounds lastEv = some s := by
      unfold endurance_spent_of
      rcases hprev with h1 | ⟨prevR, prevEv, hpr, hpe⟩
      · rw [if_pos h1]; exact ⟨_, rfl⟩
      · by_cases h1 : rounds.length = 1
        · rw [if_pos h1]; exact ⟨_, rfl⟩
        · rw [if_neg h1]
          simp only [hpr, hpe]
          exact ⟨_, rfl⟩
    obtain ⟨s, hs⟩ := hspent
    simp only [generatePlayer_endurance, hL, hF, hs, if_pos hexp]
    rw [max_eq_right (by omega : (0 : ℤ) ≤ p.original_endurance - 1)]
  · intro m p rounds lastR lastEv u hL hF hexp hu
    obtain ⟨red, hr1, hr3, hred⟩ := get_random_reduction_spec m u hu
    constructor
    · intro hlen1
      have hs : endurance_spent_of p rounds lastEv =
          some (p.original_endurance - lastEv.value) := by
        unfold endurance_spent_of
        rw [if_pos hlen1]
      refine ⟨red, hr1, hr3, ?_⟩
      simp only [generatePlayer_endurance, hL, hF, hs, if_neg (not_le.mpr hexp), hred]
    · intro prevR prevEv hne hpr hpe
      have hs : endurance_spent_of p rounds lastEv =
          some (prevEv.value - lastEv.value) := by
        unfold endurance_spent_of
        rw [if_neg hne]
        simp only [hpr, hpe]
      refine ⟨red, hr1, hr3, ?_⟩
      simp only [generatePlayer_endurance, hL, hF, hs, if_neg (not_le.mpr hexp), hred]

/-- Witness for C2: a concrete player and stream exercising all three
branches (first round; `experience = 19`; normal recovery with the drawn
penalty). -/
theorem claim_C2_witness :
    (generatePlayer_endurance ⟨[], 0⟩ ⟨0, teamA, true, 30, 10, 0⟩ [] =
      some (⟨⟨0, teamA, true, 30, 10, 0⟩, 30⟩, ⟨[], 0⟩)) ∧
    (generatePlayer_endurance ⟨[], 0⟩ ⟨0, teamA, true, 30, 19, 0⟩
        [⟨1, [], [], [⟨⟨0, teamA, true, 30, 19, 0⟩, 28⟩], ⟨0, teamA, true, 30, 19, 0⟩, none⟩] =
      some (⟨⟨0, teamA, true, 30, 19, 0⟩, 29⟩, ⟨[], 0⟩)) ∧
    (∃ red : ℤ, 1 ≤ red ∧ red ≤ 3 ∧
      generatePlayer_endurance ⟨[(1 : ℚ) / 2], 0⟩ ⟨0, teamA, true, 30, 10, 0⟩
          [⟨1, [], [], [⟨⟨0, teamA, true, 30, 10, 0⟩, 28⟩], ⟨0, teamA, true, 30, 10, 0⟩, none⟩] =
        some (⟨⟨0, teamA, true, 30, 10, 0⟩,
            max 0 ((28 : ℤ) + max 0 (30 - 28 - red))⟩, ⟨[(1 : ℚ) / 2], 1⟩)) := by
  refine ⟨claim_C2.1 ⟨[], 0⟩ ⟨0, teamA, true, 30, 10, 0⟩ (by norm_num), ?_, ?_⟩
  · exact claim_C2.2.1 ⟨[], 0⟩ ⟨0, teamA, true, 30, 19, 0⟩
      [⟨1, [], [], [⟨⟨0, teamA, true, 30, 19, 0⟩, 28⟩], ⟨0, teamA, true, 30, 19, 0⟩, none⟩]
      ⟨1, [], [], [⟨⟨0, teamA, true, 30, 19, 0⟩, 28⟩], ⟨0, teamA, true, 30, 19, 0⟩, none⟩
      ⟨⟨0, teamA, true, 30, 19, 0⟩, 28⟩ rfl (by simp [findEnduranceValue]) (Or.inl rfl)
      (by norm_num) (by norm_num)
  · exact (claim_C2.2.2 ⟨[(1 : ℚ) / 2], 0⟩ ⟨0, teamA, true, 30, 10, 0⟩
      [⟨1, [], [], [⟨⟨0, teamA, true, 30, 10, 0⟩, 28⟩], ⟨0, teamA, true, 30, 10, 0⟩, none⟩]
      ⟨1, [], [], [⟨⟨0, teamA, true, 30, 10, 0⟩, 28⟩], ⟨0, teamA, true, 30, 10, 0⟩, none⟩
      ⟨⟨0, teamA, true, 30, 10, 0⟩, 28⟩ ((1 : ℚ) / 2) rfl (by simp [findEnduranceValue])
      (by norm_num) rfl).1 rfl

/-- C10: the stream-state frame of an endurance computation. A first-round
computation performs zero draws and leaves the model untouched; a later
round with `experience >= 19` also performs zero draws; a later round with
`experience < 19` performs exactly one draw — the loaded numbers are
unchanged and only the cursor advances, by exactly one. -/
theorem claim_C10 :
    (∀ (m : Model) (p : Player), ∃ ev,
        generatePlayer_endurance m p [] = some (ev, m)) ∧
    (∀ (m : Model) (p : Player) (rounds : List Round) (ev : EnduranceValue)
        (m' : Model), rounds ≠ [] → 19 ≤ p.experience →
        generatePlayer_endurance m p rounds = some (ev, m') → m' = m) ∧
    (∀ (m : Model) (p : Player) (rounds : List Round) (ev : EnduranceValue)
        (m' : Model), rounds ≠ [] → p.experience < 19 →
        generatePlayer_endurance m p rounds = some (ev, m') →
        m'.numbers = m.numbers ∧ m'.current = m.current + 1) := by
  refine ⟨?_, ?_, ?_⟩
  · intro m p
    exact ⟨⟨p, max 0 p.original_endurance⟩, by
      simp only [generatePlayer_endurance, List.getLast?_nil]⟩
  · intro m p rounds ev m' hne h19 h
    cases hL : rounds.getLast? with
    | none => exact absurd (List.getLast?_eq_none_iff.mp hL) hne
    | some lastR =>
        simp only [generatePlayer_endurance, hL] at h
        cases hF : findEnduranceValue lastR.endurance_values p.name with
        | none => simp only [hF] at h; exact Option.noConfusion h
        | some lastEv =>
            simp only [hF] at h
            cases hs : endurance_spent_of p rounds lastEv with
            | none => simp only [hs] at h; exact Option.noConfusion h
            | some s =>
                simp only [hs, if_pos h19] at h
                injection h with h1
                injection h1 with h1a h1b
                exact h1b.symm
  · intro m p rounds ev m' hne h19 h
    cases hL : rounds.getLast? with
    | none => exact absurd (List.getLast?_eq_none_iff.mp hL) hne
    | some lastR =>
        simp only [generatePlayer_endurance, hL] at h
        cases hF : findEnduranceValue lastR.endurance_values p.name with
        | none => simp only [hF] at h; exact Option.noConfusion h
        | some lastEv =>
            simp only [hF] at h
            cases hs : endurance_spent_of p rounds lastEv with
            | none => simp only [hs] at h; exact Option.noConfusion h
            | some s =>
                simp only [hs, if_neg (not_le.mpr h19)] at h
                cases hg : get_random_reduction m with
                | none => simp only [hg] at h; exact Option.noConfusion h
                | some redm =>
                    obtain ⟨red, m''⟩ := redm
                    simp only [hg] at h
                    injection h with h1
                    injection h1 with h1a h1b
                    subst h1b
                    exact get_random_reduction_state hg

/-- Witness for C10: the three branches at concrete inputs. -/
theorem claim_C10_witness :
    (∃ ev, generatePlayer_endurance ⟨[(1 : ℚ) / 2], 0⟩ ⟨0, teamA, true, 30, 10, 0⟩ [] =
      some (ev, ⟨[(1 : ℚ) / 2], 0⟩)) ∧
    ((⟨[], 0⟩ : Model) = ⟨[], 0⟩) ∧
    (([(1 : ℚ) / 2] : List ℚ) = [(1 : ℚ) / 2] ∧ (1 : ℕ) = 0 + 1) := by
  refine ⟨claim_C10.1 ⟨[(1 : ℚ) / 2], 0⟩ ⟨0, teamA, true, 30, 10, 0⟩, ?_, ?_⟩
  · exact claim_C10.2.1 ⟨[], 0⟩ ⟨0, teamA, true, 30, 19, 0⟩
      [⟨1, [], [], [⟨⟨0, teamA, true, 30, 19, 0⟩, 28⟩, ⟨⟨1, teamB, true, 30, 10, 0⟩, 27⟩],
        ⟨0, teamA, true, 30, 19, 0⟩, none⟩]
      ⟨⟨0, teamA, true, 30, 19, 0⟩, 29⟩ ⟨[], 0⟩ (by simp)
      (by norm_num)
      (by simp [generatePlayer_endurance, findEnduranceValue, endurance_spent_of])
  · exact claim_C10.2.2 ⟨[(1 : ℚ) / 2], 0⟩ ⟨0, teamA, true, 30, 10, 0⟩
      [⟨1, [], [], [⟨⟨0, teamA, true, 30, 10, 0⟩, 28⟩],
        ⟨0, teamA, true, 30, 10, 0⟩, none⟩]
      ⟨⟨0, teamA, true, 30, 10, 0⟩, 28⟩ ⟨[(1 : ℚ) / 2], 1⟩ (by simp)
      (by norm_num)
      (by simp [generatePlayer_endurance, findEnduranceValue, endurance_spent_of,
        get_random_reduction, get_pseudorandom_number]; norm_num)

/-! ### Helper lemmas: filtered lookups, indices, tallies -/

theorem first_filter_spec {α β : Type} [DecidableEq β] (f : α → β) (b : β) :
    ∀ l : List α, b ∈ l.map f →
      ∃ (i : ℕ) (w : α), (l.filter (fun e => decide (f e = b))).head? = some w ∧
        l[i]? = some w ∧ f w = b ∧
        ∀ (j : ℕ) (e' : α), j < i → l[j]? = some e' → f e' ≠ b := by
  intro l
  induction l with
  | nil => intro h; simp at h
  | cons a l ih =>
      intro h
      by_cases hfa : f a = b
      · refine ⟨0, a, ?_, by simp, hfa, ?_⟩
        · simp [List.filter_cons, hfa]
        · intro j e' hj
          omega
      · have hb : b ∈ l.map f := by
          rcases List.mem_map.mp h with ⟨x, hx, hxb⟩
          rcases List.mem_cons.mp hx with h' | h'
          · subst h'; exact absurd hxb hfa
          · exact List.mem_map.mpr ⟨x, h', hxb⟩
        obtain ⟨i, w, h1, h2, h3, h4⟩ := ih hb
        refine ⟨i + 1, w, ?_, ?_, h3, ?_⟩
        · simpa [List.filter_cons, hfa] using h1
        · simpa using h2
        · intro j e' hj hje
          cases j with
          | zero =>
              simp at hje
              subst hje
              exact hfa
          | succ jj =>
              exact h4 jj e' (by omega) (by simpa using hje)

theorem nodup_names_unique :
    ∀ (players : List Player), (players.map Player.name).Nodup →
      ∀ (i j : ℕ) (pi pj : Player), players[i]? = some pi → players[j]? = some pj →
        pi.name = pj.name → i = j := by
  intro players
  induction players with
  | nil => intro _ i j pi pj hi; simp at hi
  | cons a l ih =>
      intro hnd i j pi pj hi hj hname
      rw [List.map_cons, List.nodup_cons] at hnd
      obtain ⟨hna, hndl⟩ := hnd
      cases i with
      | zero =>
          cases j with
          | zero => rfl
          | succ jj =>
              simp only [List.getElem?_cons_zero, Option.some.injEq] at hi
              subst hi
              have hmem : pj ∈ l := List.getElem?_mem (by simpa using hj)
              exact absurd (List.mem_map.mpr ⟨pj, hmem, hname.symm⟩) hna
      | succ ii =>
          cases j with
          | zero =>
              simp only [List.getElem?_cons_zero, Option.some.injEq] at hj
              subst hj
              have hmem : pi ∈ l := List.getElem?_mem (by simpa using hi)
              exact absurd (List.mem_map.mpr ⟨pi, hmem, hname⟩) hna
          | succ jj =>
              have := ih hndl ii jj pi pj (by simpa using hi) (by simpa using hj) hname
              omega

theorem py_index_exists :
    ∀ (players : List Player) (nm : ℕ), nm ∈ players.map Player.name →
      ∃ (i : ℕ) (pi : Player), py_index players nm = some i ∧
        players[i]? = some pi ∧ pi.name = nm := by
  intro players
  induction players with
  | nil => intro nm h; simp at h
  | cons a l ih =>
      intro nm h
      by_cases ha : a.name = nm
      · exact ⟨0, a, by simp [py_index, ha], by simp, ha⟩
      · have hmem : nm ∈ l.map Player.name := by
          rcases List.mem_map.mp h with ⟨x, hx, hxn⟩
          rcases List.mem_cons.mp hx with h' | h'
          · subst h'; exact absurd hxn ha
          · exact List.mem_map.mpr ⟨x, h', hxn⟩
        obtain ⟨i, pi, h1, h2, h3⟩ := ih nm hmem
        exact ⟨i + 1, pi, by simp [py_index, ha, h1], by simpa using h2, h3⟩

theorem py_index_lt :
    ∀ (players : List Player) (nm : ℕ) (i : ℕ), py_index players nm = some i →
      i < players.length := by
  intro players
  induction players with
  | nil => intro nm i h; cases h
  | cons a l ih =>
      intro nm i h
      by_cases ha : a.name = nm
      · simp only [py_index, if_pos ha, Option.some.injEq] at h
        simp [← h]
      · simp only [py_index, if_neg ha] at h
        cases hr : py_index l nm with
        | none => rw [hr] at h; cases h
        | some ii =>
            rw [hr] at h
            simp only [Option.map_some', Option.some.injEq] at h
            have := ih nm ii hr
            simp only [List.length_cons]
            omega

theorem update_pts_at_length : ∀ (pts : List PtsEntry) (i : ℕ) (s : ℤ),
    (update_pts_at pts i s).length = pts.length := by
  intro pts
  induction pts with
  | nil => intro i s; rfl
  | cons e rest ih =>
      intro i s
      cases i with
      | zero => rfl
      | succ n => simp [update_pts_at, ih]

theorem update_pts_at_get_eq :
    ∀ (pts : List PtsEntry) (i : ℕ) (s : ℤ) (e : PtsEntry),
      pts[i]? = some e →
      (update_pts_at pts i s)[i]? = some ⟨e.player, e.points + s⟩ := by
  intro pts
  induction pts with
  | nil => intro i s e h; simp at h
  | cons a rest ih =>
      intro i s e h
      cases i with
      | zero =>
          simp only [List.getElem?_cons_zero, Option.some.injEq] at h
          subst h
          simp [update_pts_at]
      | succ n =>
          simp only [update_pts_at, List.getElem?_cons_succ]
          exact ih n s e (by simpa using h)

theorem update_pts_at_get_ne :
    ∀ (pts : List PtsEntry) (i j : ℕ) (s : ℤ), j ≠ i →
      (update_pts_at pts i s)[j]? = pts[j]? := by
  intro pts
  induction pts with
  | nil => intro i j s h; rfl
  | cons a rest ih =>
      intro i j s hne
      cases i with
      | zero =>
          cases j with
          | zero => exact absurd rfl hne
          | succ jj => simp [update_pts_at]
      | succ n =>
          cases j with
          | zero => simp [update_pts_at]
          | succ jj =>
              simp only [update_pts_at, List.getElem?_cons_succ]
              exact ih n jj s (by omega)

theorem add_experience_exists : ∀ (ps : List Player) (nm : ℕ),
    nm ∈ ps.map Player.name → ∃ ps', add_experience ps nm = some ps' := by
  intro ps
  induction ps with
  | nil => intro nm h; simp at h
  | cons a l ih =>
      intro nm h
      by_cases ha : a.name = nm
      · exact ⟨{ a with experience := a.experience + 3 } :: l,
          by simp [add_experience, ha]⟩
      · have hmem : nm ∈ l.map Player.name := by
          rcases List.mem_map.mp h with ⟨x, hx, hxn⟩
          rcases List.mem_cons.mp hx with h' | h'
          · subst h'; exact absurd hxn ha
          · exact List.mem_map.mpr ⟨x, h', hxn⟩
        obtain ⟨ps', hps'⟩ := ih nm hmem
        exact ⟨a :: ps', by simp [add_experience, ha, hps']⟩

theorem add_experience_spec : ∀ (ps : List Player) (nm : ℕ) (ps' : List Player),
    add_experience ps nm = some ps' →
    ∃ (i : ℕ) (pi : Player), ps[i]? = some pi ∧ pi.name = nm ∧
      ps'.length = ps.length ∧
      ps'[i]? = some { pi with experience := pi.experience + 3 } ∧
      ∀ j, j ≠ i → ps'[j]? = ps[j]? := by
  intro ps
  induction ps with
  | nil => intro nm ps' h; cases h
  | cons a l ih =>
      intro nm ps' h
      by_cases ha : a.name = nm
      · simp only [add_experience, if_pos ha, Option.some.injEq] at h
        subst h
        refine ⟨0, a, by simp, ha, by simp, by simp, ?_⟩
        intro j hj
        cases j with
        | zero => exact absurd rfl hj
        | succ jj => simp
      · simp only [add_experience, if_neg ha] at h
        cases hr : add_experience l nm with
        | none => rw [hr] at h; cases h
        | some l' =>
            rw [hr] at h
            simp only [Option.map_some', Option.some.injEq] at h
            subst h
            obtain ⟨i, pi, h1, h2, h3, h4, h5⟩ := ih nm l' hr
            refine ⟨i + 1, pi, by simpa using h1, h2, by simp [h3],
              by simpa using h4, ?_⟩
            intro j hj
            cases j with
            | zero => simp
            | succ jj =>
                simp only [List.getElem?_cons_succ]
                exact h5 jj (by omega)

theorem team_round_score_cons (t : String) (s : Shot) (rest : List Shot) :
    team_round_score t (s :: rest) =
      (if s.player.team.name = t ∧
          (s.type = ShotType.NS ∨ s.type = ShotType.LS ∨ s.type = ShotType.AS)
        then s.score else 0) + team_round_score t rest := by
  by_cases h : s.player.team.name = t ∧
      (s.type = ShotType.NS ∨ s.type = ShotType.LS ∨ s.type = ShotType.AS)
  · simp [team_round_score, List.filter_cons, h]
  · simp [team_round_score, List.filter_cons, h]

theorem individual_score_cons (pname : ℕ) (s : Shot) (rest : List Shot) :
    individual_score pname (s :: rest) =
      (if s.player.name = pname ∧
          (s.type = ShotType.NS ∨ s.type = ShotType.ES ∨ s.type = ShotType.AS)
        then s.score else 0) + individual_score pname rest := by
  by_cases h : s.player.name = pname ∧
      (s.type = ShotType.NS ∨ s.type = ShotType.ES ∨ s.type = ShotType.AS)
  · simp [individual_score, List.filter_cons, h]
  · simp [individual_score, List.filter_cons, h]

theorem teams_lookup_A :
    (teams.filter (fun tm => decide (tm.name = "Team A"))).head? = some teamA := by
  simp [teams, teamA, teamB, List.filter_cons]

theorem teams_lookup_B :
    (teams.filter (fun tm => decide (tm.name = "Team B"))).head? = some teamB := by
  simp [teams, teamA, teamB, List.filter_cons]

/-- Characterization of the `for shot in shots` loop of `calculate_winner`:
the team accumulators gain exactly the declarative NS/LS/AS team sums, and
each roster-indexed tally gains exactly the declarative NS/ES/AS individual
sum of the matching player. -/
theorem cwl_spec (players : List Player)
    (hnd : (players.map Player.name).Nodup) :
    ∀ (shots : List Shot) (ta tb : ℤ) (pts : List PtsEntry),
      (∀ s ∈ shots, s.player.name ∈ players.map Player.name) →
      pts.length = players.length →
      ∃ (ta' tb' : ℤ) (pts' : List PtsEntry),
        calculate_winner_loop players shots ta tb pts = some (ta', tb', pts') ∧
        ta' = ta + team_round_score "Team A" shots ∧
        tb' = tb + team_round_score "Team B" shots ∧
        pts'.length = pts.length ∧
        ∀ (j : ℕ) (e : PtsEntry) (pj : Player),
          pts[j]? = some e → players[j]? = some pj →
          pts'[j]? = some ⟨e.player, e.points + individual_score pj.name shots⟩ := by
  intro shots
  induction shots with
  | nil =>
      intro ta tb pts hsh hlen
      refine ⟨ta, tb, pts, rfl, by simp [team_round_score],
        by simp [team_round_score], rfl, ?_⟩
      intro j e pj he hpj
      rw [he]
      simp [individual_score]
  | cons s rest ih =>
      intro ta tb pts hsh hlen
      have hs : s.player.name ∈ players.map Player.name :=
        hsh s (List.mem_cons_self s rest)
      have hrest : ∀ x ∈ rest, x.player.name ∈ players.map Player.name :=
        fun x hx => hsh x (List.mem_cons_of_mem s hx)
      by_cases hty : s.type = ShotType.NS ∨ s.type = ShotType.ES ∨ s.type = ShotType.AS
      · obtain ⟨i, pi, hidx, hpi, hpiname⟩ := py_index_exists players s.player.name hs
        have hilt : i < players.length := py_index_lt players _ i hidx
        have hiptslt : i < pts.length := by omega
        obtain ⟨ta', tb', pts', hloop, hta, htb, hlenp, hchar⟩ :=
          ih (if s.player.team.name = "Team A" ∧
                (s.type = ShotType.NS ∨ s.type = ShotType.LS ∨ s.type = ShotType.AS)
              then ta + s.score else ta)
            (if s.player.team.name = "Team B" ∧
                (s.type = ShotType.NS ∨ s.type = ShotType.LS ∨ s.type = ShotType.AS)
              then tb + s.score else tb)
            (update_pts_at pts i s.score) hrest
            (by rw [update_pts_at_length]; exact hlen)
        refine ⟨ta', tb', pts', ?_, ?_, ?_, ?_, ?_⟩
        · simp only [calculate_winner_loop, if_pos hty, hidx]
          exact hloop
        · rw [hta, team_round_score_cons]
          by_cases hA : s.player.team.name = "Team A" ∧
              (s.type = ShotType.NS ∨ s.type = ShotType.LS ∨ s.type = ShotType.AS)
          · simp only [if_pos hA]; ring
          · simp only [if_neg hA]; ring
        · rw [htb, team_round_score_cons]
          by_cases hB : s.player.team.name = "Team B" ∧
              (s.type = ShotType.NS ∨ s.type = ShotType.LS ∨ s.type = ShotType.AS)
          · simp only [if_pos hB]; ring
          · simp only [if_neg hB]; ring
        · rw [hlenp, update_pts_at_length]
        · intro j e pj he hpj
          by_cases hji : j = i
          · subst hji
            have hpj' : pj = pi := by
              rw [hpi] at hpj
              exact (Option.some.injEq _ _ ▸ hpj).symm
            subst hpj'
            have hupd := update_pts_at_get_eq pts j s.score e he
            have := hchar j ⟨e.player, e.points + s.score⟩ pj hupd hpj
            rw [this, individual_score_cons,
              if_pos ⟨hpiname.symm ▸ rfl, hty⟩]
            congr 1
            simp
            ring
          · have hupd := update_pts_at_get_ne pts i j s.score hji
            have := hchar j e pj (by rw [hupd]; exact he) hpj
            rw [this, individual_score_cons]
            have hcond : ¬ (s.player.name = pj.name ∧
                (s.type = ShotType.NS ∨ s.type = ShotType.ES ∨ s.type = ShotType.AS)) := by
              rintro ⟨hname, -⟩
              exact hji (nodup_names_unique players hnd j i pj pi hpj hpi
                (by rw [hpiname]; exact hname.symm))
            rw [if_neg hcond]
            simp
      · obtain ⟨ta', tb', pts', hloop, hta, htb, hlenp, hchar⟩ :=
          ih (if s.player.team.name = "Team A" ∧
                (s.type = ShotType.NS ∨ s.type = ShotType.LS ∨ s.type = ShotType.AS)
              then ta + s.score else ta)
            (if s.player.team.name = "Team B" ∧
                (s.type = ShotType.NS ∨ s.type = ShotType.LS ∨ s.type = ShotType.AS)
              then tb + s.score else tb)
            pts hrest hlen
        refine ⟨ta', tb', pts', ?_, ?_, ?_, hlenp, ?_⟩
        · simp only [calculate_winner_loop, if_neg hty]
          exact hloop
        · rw [hta, team_round_score_cons]
          by_cases hA : s.player.team.name = "Team A" ∧
              (s.type = ShotType.NS ∨ s.type = ShotType.LS ∨ s.type = ShotType.AS)
          · simp only [if_pos hA]; ring
          · simp only [if_neg hA]; ring
        · rw [htb, team_round_score_cons]
          by_cases hB : s.player.team.name = "Team B" ∧
              (s.type = ShotType.NS ∨ s.type = ShotType.LS ∨ s.type = ShotType.AS)
          · simp only [if_pos hB]; ring
          · simp only [if_neg hB]; ring
        · intro j e pj he hpj
          have := hchar j e pj he hpj
          rw [this, individual_score_cons, if_neg (fun hc => hty hc.2)]
          simp

/-! ### Claim C1 -/

/-- C1: `calculate_winner` computes each team's score as the sum of that
team's NS/LS/AS shot scores (ES excluded) and each player's individual
score as the sum of that player's NS/ES/AS shot scores (LS excluded);
`winner_team` is `None` exactly when the team scores tie and otherwise the
strictly higher team; `winner_player` is the first roster player whose
individual score is maximal, and exactly that player's experience grows, by
exactly 3. -/
theorem claim_C1 (players : List Player) (shots : List Shot)
    (hne : players ≠ [])
    (hnd : (players.map Player.name).Nodup)
    (hsh : ∀ s ∈ shots, s.player.name ∈ players.map Player.name) :
    ∃ (wp : Player) (wt : Option Team) (players' : List Player) (i : ℕ),
      calculate_winner players shots = some (wp, wt, players') ∧
      (wt = none ↔
        team_round_score "Team A" shots = team_round_score "Team B" shots) ∧
      (team_round_score "Team A" shots > team_round_score "Team B" shots →
        wt = some teamA) ∧
      (team_round_score "Team B" shots > team_round_score "Team A" shots →
        wt = some teamB) ∧
      players[i]? = some wp ∧
      (∀ p ∈ players,
        individual_score p.name shots ≤ individual_score wp.name shots) ∧
      (∀ (j : ℕ) (q : Player), j < i → players[j]? = some q →
        individual_score q.name shots < individual_score wp.name shots) ∧
      players'.length = players.length ∧
      players'[i]? = some { wp with experience := wp.experience + 3 } ∧
      (∀ j : ℕ, j ≠ i → players'[j]? = players[j]?) := by
  obtain ⟨ta, tb, pts, hloop, hta, htb, hlenp, hchar⟩ :=
    cwl_spec players hnd shots 0 0 (players.map (fun p => ⟨p, 0⟩)) hsh (by simp)
  have hpts_at : ∀ (j : ℕ) (pj : Player), players[j]? = some pj →
      pts[j]? = some ⟨pj, individual_score pj.name shots⟩ := by
    intro j pj hpj
    have h0 : (players.map (fun p => (⟨p, 0⟩ : PtsEntry)))[j]? = some ⟨pj, 0⟩ := by
      rw [List.getElem?_map, hpj]; rfl
    have := hchar j ⟨pj, 0⟩ pj h0 hpj
    simpa using this
  have hlen2 : pts.length = players.length := by
    rw [hlenp]; simp
  have hlist : pts.map (fun e => e.points) =
      players.map (fun p => individual_score p.name shots) := by
    apply List.ext_getElem?
    intro n
    rw [List.getElem?_map, List.getElem?_map]
    cases hp : players[n]? with
    | none =>
        have h1 : players.length ≤ n := List.getElem?_eq_none_iff.mp hp
        have h2 : pts[n]? = none := List.getElem?_eq_none_iff.mpr (by omega)
        rw [h2]
        rfl
    | some pj =>
        rw [hpts_at n pj hp]
        rfl
  have hmapne : players.map (fun p => individual_score p.name shots) ≠ [] := by
    simpa using hne
  obtain ⟨mx, hmx⟩ := py_max_isSome
    (l := pts.map (fun e => e.points)) (by rw [hlist]; exact hmapne)
  have hmxmem : mx ∈ pts.map (fun e => e.points) := py_max_mem hmx
  obtain ⟨iw, w, hhead, hgetw, hwpts, hfirst⟩ :=
    first_filter_spec (fun e : PtsEntry => e.points) mx pts
      (by simpa using hmxmem)
  have hiwlt : iw < pts.length := by
    by_contra hcon
    rw [List.getElem?_eq_none_iff.mpr (by omega)] at hgetw
    cases hgetw
  have hpwlt : iw < players.length := by omega
  obtain ⟨piw, hpiw⟩ : ∃ piw, players[iw]? = some piw :=
    ⟨players[iw], List.getElem?_eq_getElem hpwlt⟩
  have hw : w = ⟨piw, individual_score piw.name shots⟩ := by
    have h2 := hpts_at iw piw hpiw
    rw [hgetw] at h2
    injection h2 with h3
  have hwplayer : w.player = piw := by rw [hw]
  have hwname : w.player.name = piw.name := by rw [hw]
  have hnamemem : w.player.name ∈ players.map Player.name :=
    List.mem_map.mpr ⟨piw, List.getElem?_mem hpiw, hwname.symm⟩
  obtain ⟨players', hadd⟩ := add_experience_exists players w.player.name hnamemem
  obtain ⟨i2, pi2, hgi2, hni2, hlen', hbump, hother⟩ :=
    add_experience_spec players _ players' hadd
  have hi2 : iw = i2 := (nodup_names_unique players hnd i2 iw pi2 piw hgi2 hpiw
    (by rw [hni2, hwname])).symm
  subst hi2
  have hpi2 : pi2 = piw := by
    rw [hgi2] at hpiw
    injection hpiw
  subst hpi2
  have hmxval : mx = individual_score w.player.name shots := by
    rw [← hwpts, hw]
  have hcw : calculate_winner players shots = some (w.player,
      (if ta ≠ tb then
        (teams.filter (fun tm => decide (tm.name =
          (if ta > tb then "Team A" else "Team B")))).head?
       else none), players') := by
    simp only [calculate_winner, hloop, hmx, hhead, hadd]
  have htaTA : ta = team_round_score "Team A" shots := by rw [hta]; ring
  have htbTB : tb = team_round_score "Team B" shots := by rw [htb]; ring
  refine ⟨w.player, _, players', iw, hcw, ?_, ?_, ?_, ?_, ?_, ?_, ?_, ?_, ?_⟩
  · constructor
    · intro h
      by_contra hcon
      rw [if_pos (by rw [htaTA, htbTB]; exact hcon)] at h
      by_cases hgt : ta > tb
      · rw [if_pos hgt, teams_lookup_A] at h
        cases h
      · rw [if_neg hgt, teams_lookup_B] at h
        cases h
    · intro h
      rw [if_neg (by rw [htaTA, htbTB]; simpa using h)]
  · intro h
    have h1 : ta > tb := by rw [htaTA, htbTB]; exact h
    rw [if_pos (by omega : ta ≠ tb), if_pos h1, teams_lookup_A]
  · intro h
    have h1 : tb > ta := by rw [htaTA, htbTB]; exact h
    rw [if_pos (by omega : ta ≠ tb), if_neg (by omega : ¬ ta > tb), teams_lookup_B]
  · rw [hwplayer]
    exact hpiw
  · intro p hp
    have hple : individual_score p.name shots ≤ mx := by
      apply py_max_le hmx
      rw [hlist]
      exact List.mem_map.mpr ⟨p, hp, rfl⟩
    rw [← hmxval]
    exact hple
  · intro j q hj hq
    have hne' := hfirst j ⟨q, individual_score q.name shots⟩ hj (hpts_at j q hq)
    have hle : individual_score q.name shots ≤ mx := by
      apply py_max_le hmx
      rw [hlist]
      exact List.mem_map.mpr ⟨q, List.getElem?_mem hq, rfl⟩
    rw [← hmxval]
    exact lt_of_le_of_ne hle (by simpa using hne')
  · exact hlen'
  · rw [hwplayer]
    exact hbump
  · exact hother

/-- Witness for C1: a one-player roster and a single NS shot. -/
theorem claim_C1_witness :
    ∃ (wp : Player) (wt : Option Team) (players' : List Player) (i : ℕ),
      calculate_winner [⟨0, teamA, true, 5, 10, 0⟩]
          [⟨⟨0, teamA, true, 5, 10, 0⟩, 10, 1, ShotType.NS⟩] =
        some (wp, wt, players') ∧
      (wt = none ↔
        team_round_score "Team A" [⟨⟨0, teamA, true, 5, 10, 0⟩, 10, 1, ShotType.NS⟩] =
        team_round_score "Team B" [⟨⟨0, teamA, true, 5, 10, 0⟩, 10, 1, ShotType.NS⟩]) ∧
      (team_round_score "Team A" [⟨⟨0, teamA, true, 5, 10, 0⟩, 10, 1, ShotType.NS⟩] >
        team_round_score "Team B" [⟨⟨0, teamA, true, 5, 10, 0⟩, 10, 1, ShotType.NS⟩] →
        wt = some teamA) ∧
      (team_round_score "Team B" [⟨⟨0, teamA, true, 5, 10, 0⟩, 10, 1, ShotType.NS⟩] >
        team_round_score "Team A" [⟨⟨0, teamA, true, 5, 10, 0⟩, 10, 1, ShotType.NS⟩] →
        wt = some teamB) ∧
      ([(⟨0, teamA, true, 5, 10, 0⟩ : Player)])[i]? = some wp ∧
      (∀ p ∈ [(⟨0, teamA, true, 5, 10, 0⟩ : Player)],
        individual_score p.name [⟨⟨0, teamA, true, 5, 10, 0⟩, 10, 1, ShotType.NS⟩] ≤
        individual_score wp.name [⟨⟨0, teamA, true, 5, 10, 0⟩, 10, 1, ShotType.NS⟩]) ∧
      (∀ (j : ℕ) (q : Player), j < i →
        ([(⟨0, teamA, true, 5, 10, 0⟩ : Player)])[j]? = some q →
        individual_score q.name [⟨⟨0, teamA, true, 5, 10, 0⟩, 10, 1, ShotType.NS⟩] <
        individual_score wp.name [⟨⟨0, teamA, true, 5, 10, 0⟩, 10, 1, ShotType.NS⟩]) ∧
      players'.length = [(⟨0, teamA, true, 5, 10, 0⟩ : Player)].length ∧
      players'[i]? = some { wp with experience := wp.experience + 3 } ∧
      (∀ j : ℕ, j ≠ i → players'[j]? = ([(⟨0, teamA, true, 5, 10, 0⟩ : Player)])[j]?) :=
  claim_C1 [⟨0, teamA, true, 5, 10, 0⟩]
    [⟨⟨0, teamA, true, 5, 10, 0⟩, 10, 1, ShotType.NS⟩]
    (by simp) (by simp) (by simp)

/-! ### Claim C4 -/

theorem shots_team_points_spec :
    ∀ (shots : List Shot) (ta tb : ℤ),
      shots_team_points shots ta tb =
        (ta + team_round_score "Team A" shots,
         tb + team_round_score "Team B" shots) := by
  intro shots
  induction shots with
  | nil => intro ta tb; simp [shots_team_points, team_round_score]
  | cons s rest ih =>
      intro ta tb
      simp only [shots_team_points, ih]
      rw [Prod.mk.injEq]
      constructor
      · rw [team_round_score_cons]
        by_cases hA : s.player.team.name = "Team A" ∧
            (s.type = ShotType.NS ∨ s.type = ShotType.LS ∨ s.type = ShotType.AS)
        · simp only [if_pos hA]; ring
        · simp only [if_neg hA]; ring
      · rw [team_round_score_cons]
        by_cases hB : s.player.team.name = "Team B" ∧
            (s.type = ShotType.NS ∨ s.type = ShotType.LS ∨ s.type = ShotType.AS)
        · simp only [if_pos hB]; ring
        · simp only [if_neg hB]; ring

theorem game_team_points_spec :
    ∀ (rounds : List Round) (ta tb : ℤ),
      game_team_points_loop rounds ta tb =
        (ta + team_game_score "Team A" rounds,
         tb + team_game_score "Team B" rounds) := by
  intro rounds
  induction rounds with
  | nil => intro ta tb; simp [game_team_points_loop, team_game_score]
  | cons r rest ih =>
      intro ta tb
      simp only [game_team_points_loop, shots_team_points_spec, ih, team_game_score,
        List.map_cons, List.sum_cons]
      rw [Prod.mk.injEq]
      constructor <;> ring

theorem bump_count_ne_nil : ∀ (l : List CountEntry) (p : Player),
    bump_count l p ≠ [] := by
  intro l p
  cases l with
  | nil => simp [bump_count]
  | cons e rest =>
      simp only [bump_count]
      split <;> simp

theorem foldl_bump_ne :
    ∀ (lvs : List LuckValue) (acc : List CountEntry),
      (acc ≠ [] ∨ lvs ≠ []) →
      lvs.foldl (fun acc lv => bump_count acc lv.player) acc ≠ [] := by
  intro lvs
  induction lvs with
  | nil =>
      intro acc h
      rcases h with h | h
      · simpa using h
      · exact absurd rfl h
  | cons x rest ih =>
      intro acc _
      simp only [List.foldl_cons]
      exact ih _ (Or.inl (bump_count_ne_nil acc x.player))

theorem collect_preserve :
    ∀ (rounds : List Round) (lks rds : List CountEntry),
      (lks ≠ [] → (collect_winners rounds lks rds).1 ≠ []) ∧
      (rds ≠ [] → (collect_winners rounds lks rds).2 ≠ []) := by
  intro rounds
  induction rounds with
  | nil => intro lks rds; exact ⟨id, id⟩
  | cons r rest ih =>
      intro lks rds
      constructor
      · intro hl
        simp only [collect_winners]
        exact (ih _ _).1 (foldl_bump_ne _ _ (Or.inl hl))
      · intro _
        simp only [collect_winners]
        exact (ih _ _).2 (bump_count_ne_nil _ _)

theorem collect_ne (rounds : List Round) (hne : rounds ≠ [])
    (hlv : ∀ r ∈ rounds, r.luck_values ≠ []) :
    (collect_winners rounds [] []).1 ≠ [] ∧
    (collect_winners rounds [] []).2 ≠ [] := by
  cases rounds with
  | nil => exact absurd rfl hne
  | cons r rest =>
      constructor
      · simp only [collect_winners]
        exact (collect_preserve rest _ _).1
          (foldl_bump_ne _ _ (Or.inr (hlv r (List.mem_cons_self r rest))))
      · simp only [collect_winners]
        exact (collect_preserve rest _ _).2 (bump_count_ne_nil _ _)

/-- C4: for a well-formed game (nonempty round list, each round carrying
its luck values), `calculate_game_winner` names `"Team A"` exactly when
Team A's NS/LS/AS total over all rounds is strictly greater, and `"Team B"`
in every other case, including an exact tie; the game-level winning team is
never `None` (the result carries a `Team`, not an `Option Team`). -/
theorem claim_C4 (rounds : List Round) (hne : rounds ≠ [])
    (hlv : ∀ r ∈ rounds, r.luck_values ≠ []) :
    ∃ (wp : Player) (wt : Team) (lp : Player),
      calculate_game_winner rounds = some (wp, wt, lp) ∧
      (wt = teamA ↔
        team_game_score "Team A" rounds > team_game_score "Team B" rounds) ∧
      (wt = teamB ↔
        ¬ team_game_score "Team A" rounds > team_game_score "Team B" rounds) := by
  obtain ⟨hlks, hrds⟩ := collect_ne rounds hne hlv
  obtain ⟨mr, hmr⟩ := py_max_isSome
    (l := (collect_winners rounds [] []).2.map (fun e => e.amount))
    (by simpa using hrds)
  obtain ⟨ir, rw_, hrhead, -, -, -⟩ :=
    first_filter_spec (fun e : CountEntry => e.amount) mr
      (collect_winners rounds [] []).2 (by simpa using py_max_mem hmr)
  obtain ⟨ml, hml⟩ := py_max_isSome
    (l := (collect_winners rounds [] []).1.map (fun e => e.amount))
    (by simpa using hlks)
  obtain ⟨il, lw_, hlhead, -, -, -⟩ :=
    first_filter_spec (fun e : CountEntry => e.amount) ml
      (collect_winners rounds [] []).1 (by simpa using py_max_mem hml)
  have hg := game_team_points_spec rounds 0 0
  have hAB : teamA ≠ teamB := by
    intro h
    exact absurd (congrArg Team.name h) (by simp [teamA, teamB])
  by_cases hgt : team_game_score "Team A" rounds > team_game_score "Team B" rounds
  · refine ⟨rw_.player, teamA, lw_.player, ?_, by simp [hgt], ?_⟩
    · simp only [calculate_game_winner, hg]
      rw [if_pos (by simpa using hgt), teams_lookup_A]
      simp only [hmr, hrhead, hml, hlhead]
    · constructor
      · intro h; exact absurd h hAB
      · intro h; exact absurd hgt h
  · refine ⟨rw_.player, teamB, lw_.player, ?_, ?_, by simp [hgt]⟩
    · simp only [calculate_game_winner, hg]
      rw [if_neg (by simpa using hgt), teams_lookup_B]
      simp only [hmr, hrhead, hml, hlhead]
    · constructor
      · intro h; exact absurd h.symm hAB
      · intro h; exact absurd h hgt

/-- Witness for C4: a one-round game with no shots — the tied totals fall
to `"Team B"`. -/
theorem claim_C4_witness :
    ∃ (wp : Player) (wt : Team) (lp : Player),
      calculate_game_winner
          [⟨1, [], [⟨⟨0, teamA, true, 5, 10, 0⟩, 0⟩], [],
            ⟨0, teamA, true, 5, 10, 0⟩, none⟩] = some (wp, wt, lp) ∧
      (wt = teamA ↔
        team_game_score "Team A"
            [⟨1, [], [⟨⟨0, teamA, true, 5, 10, 0⟩, 0⟩], [],
              ⟨0, teamA, true, 5, 10, 0⟩, none⟩] >
        team_game_score "Team B"
            [⟨1, [], [⟨⟨0, teamA, true, 5, 10, 0⟩, 0⟩], [],
              ⟨0, teamA, true, 5, 10, 0⟩, none⟩]) ∧
      (wt = teamB ↔
        ¬ team_game_score "Team A"
            [⟨1, [], [⟨⟨0, teamA, true, 5, 10, 0⟩, 0⟩], [],
              ⟨0, teamA, true, 5, 10, 0⟩, none⟩] >
        team_game_score "Team B"
            [⟨1, [], [⟨⟨0, teamA, true, 5, 10, 0⟩, 0⟩], [],
              ⟨0, teamA, true, 5, 10, 0⟩, none⟩]) :=
  claim_C4 [⟨1, [], [⟨⟨0, teamA, true, 5, 10, 0⟩, 0⟩], [],
    ⟨0, teamA, true, 5, 10, 0⟩, none⟩] (by simp) (by simp)

/-! ### Claim C5: monotonicity machinery -/

theorem getElem?_some_lt {α : Type} {l : List α} {j : ℕ} {a : α}
    (h : l[j]? = some a) : j < l.length := by
  by_contra hc
  rw [List.getElem?_eq_none_iff.mpr (by omega)] at h
  cases h

theorem shots_frame_refl (p : Player) : shots_frame p p :=
  ⟨rfl, rfl, rfl, rfl, rfl, le_refl _⟩

theorem shots_frame_trans {p q r : Player} (h1 : shots_frame p q)
    (h2 : shots_frame q r) : shots_frame p r := by
  obtain ⟨hnm, htm, hgd, hoe, hex, htp⟩ := h1
  obtain ⟨hnm', htm', hgd', hoe', hex', htp'⟩ := h2
  refine ⟨hnm'.trans hnm, htm'.trans htm, hgd'.trans hgd, hoe'.trans hoe,
    hex'.trans hex, htp.trans htp'⟩

theorem roster_rel_refl (ps : List Player) : roster_rel ps ps := by
  refine ⟨rfl, ?_⟩
  intro j p q h1 h2
  rw [h1] at h2
  injection h2 with h3
  rw [h3]
  exact shots_frame_refl q

theorem roster_rel_trans {ps qs rs : List Player} (h1 : roster_rel ps qs)
    (h2 : roster_rel qs rs) : roster_rel ps rs := by
  refine ⟨h2.1.trans h1.1, ?_⟩
  intro j p r hp hr
  have hj : j < qs.length := by
    have hlt := getElem?_some_lt hp
    have hq1 := h1.1
    omega
  obtain ⟨q, hq⟩ : ∃ q, qs[j]? = some q := ⟨qs[j], List.getElem?_eq_getElem hj⟩
  exact shots_frame_trans (h1.2 j p q hp hq) (h2.2 j q r hq hr)

theorem roster_rel_cons {p p' : Player} {ps ps' : List Player}
    (h1 : shots_frame p p') (h2 : roster_rel ps ps') :
    roster_rel (p :: ps) (p' :: ps') := by
  refine ⟨by simp [h2.1], ?_⟩
  intro j a b ha hb
  cases j with
  | zero =>
      simp only [List.getElem?_cons_zero, Option.some.injEq] at ha hb
      rw [← ha, ← hb]
      exact h1
  | succ jj =>
      exact h2.2 jj a b (by simpa using ha) (by simpa using hb)

theorem calculate_score_male_nonneg (u : ℚ) : 0 ≤ calculate_score_male u := by
  unfold calculate_score_male
  split_ifs <;> norm_num

theorem calculate_score_female_nonneg (u : ℚ) : 0 ≤ calculate_score_female u := by
  unfold calculate_score_female
  split_ifs <;> norm_num

theorem do_shot_spec {m : Model} {p : Player} {n : ℕ} {ty : ShotType}
    {shot : Shot} {m' : Model} (h : do_shot m p n ty = some (shot, m')) :
    shot.player = p ∧ 0 ≤ shot.score := by
  unfold do_shot at h
  cases hg : get_pseudorandom_number m with
  | none => simp only [hg] at h; exact Option.noConfusion h
  | some um =>
      obtain ⟨u, m2⟩ := um
      simp only [hg] at h
      simp only [Option.some.injEq, Prod.mk.injEq] at h
      obtain ⟨hshot, -⟩ := h
      subst hshot
      refine ⟨rfl, ?_⟩
      by_cases hmale : p.is_male
      · simp [hmale, calculate_score_male_nonneg]
      · simp [hmale, calculate_score_female_nonneg]

theorem add_points_rel (roster : List Player) (nm : ℕ) (s : ℤ) (hs : 0 ≤ s) :
    roster_rel roster (add_points roster nm s) := by
  refine ⟨by simp [add_points], ?_⟩
  intro j p q h1 h2
  rw [add_points, List.getElem?_map, h1] at h2
  simp only [Option.map_some', Option.some.injEq] at h2
  by_cases hname : p.name = nm
  · rw [if_pos hname] at h2
    rw [← h2]
    refine ⟨rfl, rfl, rfl, rfl, rfl, ?_⟩
    simp
    omega
  · rw [if_neg hname] at h2
    rw [← h2]
    exact shots_frame_refl p

theorem normal_shots_loop_frame :
    ∀ (fuel : ℕ) (m : Model) (p : Player) (e : ℤ) (shots : List Shot) (pts : ℤ)
      (m' : Model) (p' : Player) (shots' : List Shot) (pts' : ℤ),
      normal_shots_loop fuel m p e shots pts = some (m', p', shots', pts') →
      shots_frame p p' := by
  intro fuel
  induction fuel with
  | zero => intro m p e shots pts m' p' shots' pts' h; cases h
  | succ n ih =>
      intro m p e shots pts m' p' shots' pts' h
      simp only [normal_shots_loop] at h
      by_cases hcond : 5 ≤ e
      · rw [if_pos hcond] at h
        cases hd : do_shot m p (shots.length + 1) with
        | none => simp only [hd] at h; exact Option.noConfusion h
        | some sm =>
            obtain ⟨shot, m2⟩ := sm
            simp only [hd] at h
            have hframe := ih _ _ _ _ _ _ _ _ _ h
            have hsc := (do_shot_spec hd).2
            have hstep : shots_frame p
                { p with total_points := p.total_points + shot.score } := by
              refine ⟨rfl, rfl, rfl, rfl, rfl, ?_⟩
              simp
              omega
            exact shots_frame_trans hstep hframe
      · rw [if_neg hcond] at h
        simp only [Option.some.injEq, Prod.mk.injEq] at h
        obtain ⟨-, h2, -, -⟩ := h
        rw [← h2]
        exact shots_frame_refl p

theorem phase1_loop_rel :
    ∀ (players : List Player) (m : Model) (rounds : List Round)
      (shots : List Shot) (evs : List EnduranceValue) (pts : List PtsEntry)
      (m' : Model) (players' : List Player) (shotsF : List Shot)
      (evsF : List EnduranceValue) (ptsF : List PtsEntry),
      phase1_loop m players rounds shots evs pts =
        some (m', players', shotsF, evsF, ptsF) →
      roster_rel players players' := by
  intro players
  induction players with
  | nil =>
      intro m rounds shots evs pts m' players' shotsF evsF ptsF h
      simp only [phase1_loop, Option.some.injEq, Prod.mk.injEq] at h
      obtain ⟨-, h2, -, -, -⟩ := h
      rw [← h2]
      exact roster_rel_refl []
  | cons a rest ih =>
      intro m rounds shots evs pts m' players' shotsF evsF ptsF h
      simp only [phase1_loop] at h
      cases he : generatePlayer_endurance m a rounds with
      | none => simp only [he] at h; exact Option.noConfusion h
      | some em =>
          obtain ⟨endurance, m1⟩ := em
          simp only [he] at h
          cases hn : normal_shots_loop (endurance.value.toNat + 1) m1 a
              endurance.value shots 0 with
          | none => simp only [hn] at h; exact Option.noConfusion h
          | some nm4 =>
              obtain ⟨m2, player', shots'', pts_p⟩ := nm4
              simp only [hn] at h
              cases hp : phase1_loop m2 rest rounds shots''
                  (evs ++ [endurance]) (pts ++ [⟨a, pts_p⟩]) with
              | none => simp only [hp] at h; exact Option.noConfusion h
              | some t5 =>
                  obtain ⟨m3, rest', shotsF2, evsF2, ptsF2⟩ := t5
                  simp only [hp] at h
                  simp only [Option.some.injEq, Prod.mk.injEq] at h
                  obtain ⟨-, h2, -, -, -⟩ := h
                  rw [← h2]
                  exact roster_rel_cons
                    (normal_shots_loop_frame _ _ _ _ _ _ _ _ _ _ hn)
                    (ih _ _ _ _ _ _ _ _ _ _ hp)

theorem special_shots_loop_rel :
    ∀ (lst : List Player) (m : Model) (roster : List Player) (ty : ShotType)
      (shots : List Shot) (m' : Model) (roster' : List Player)
      (shots' : List Shot),
      special_shots_loop m roster lst ty shots = some (m', roster', shots') →
      roster_rel roster roster' := by
  intro lst
  induction lst with
  | nil =>
      intro m roster ty shots m' roster' shots' h
      simp only [special_shots_loop, Option.some.injEq, Prod.mk.injEq] at h
      obtain ⟨-, h2, -⟩ := h
      rw [← h2]
      exact roster_rel_refl roster
  | cons p rest ih =>
      intro m roster ty shots m' roster' shots' h
      simp only [special_shots_loop] at h
      cases hd : do_shot m p (shots.length + 1) ty with
      | none => simp only [hd] at h; exact Option.noConfusion h
      | some sm =>
          obtain ⟨shot, m2⟩ := sm
          simp only [hd] at h
          exact roster_rel_trans
            (add_points_rel roster p.name shot.score (do_shot_spec hd).2)
            (ih _ _ _ _ _ _ _ h)

theorem advantage_shots_loop_rel :
    ∀ (lst : List Player) (m : Model) (roster : List Player)
      (last_two : List Round) (shots : List Shot) (m' : Model)
      (roster' : List Player) (shots' : List Shot),
      advantage_shots_loop m roster lst last_two shots =
        some (m', roster', shots') →
      roster_rel roster roster' := by
  intro lst
  induction lst with
  | nil =>
      intro m roster last_two shots m' roster' shots' h
      simp only [advantage_shots_loop, Option.some.injEq, Prod.mk.injEq] at h
      obtain ⟨-, h2, -⟩ := h
      rw [← h2]
      exact roster_rel_refl roster
  | cons p rest ih =>
      intro m roster last_two shots m' roster' shots' h
      simp only [advantage_shots_loop] at h
      by_cases hc : consecutive_luck last_two p
      · rw [if_pos hc] at h
        cases hd : do_shot m p (shots.length + 1) ShotType.AS with
        | none => simp only [hd] at h; exact Option.noConfusion h
        | some sm =>
            obtain ⟨shot, m2⟩ := sm
            simp only [hd] at h
            exact roster_rel_trans
              (add_points_rel roster p.name shot.score (do_shot_spec hd).2)
              (ih _ _ _ _ _ _ _ h)
      · rw [if_neg hc] at h
        exact ih _ _ _ _ _ _ _ h

theorem es_pass_rel :
    ∀ (tied : List PtsEntry) (m : Model) (roster : List Player)
      (shots : List Shot) (m2 : Model) (roster2 : List Player)
      (tied2 : List PtsEntry) (shots2 : List Shot),
      es_pass m roster tied shots = some (m2, roster2, tied2, shots2) →
      roster_rel roster roster2 := by
  intro tied
  induction tied with
  | nil =>
      intro m roster shots m2 roster2 tied2 shots2 h
      simp only [es_pass, Option.some.injEq, Prod.mk.injEq] at h
      obtain ⟨-, h2, -, -⟩ := h
      rw [← h2]
      exact roster_rel_refl roster
  | cons e rest ih =>
      intro m roster shots m2 roster2 tied2 shots2 h
      simp only [es_pass] at h
      cases hd : do_shot m e.player (shots.length + 1) ShotType.ES with
      | none => simp only [hd] at h; exact Option.noConfusion h
      | some sm =>
          obtain ⟨shot, m1⟩ := sm
          simp only [hd] at h
          cases hp : es_pass m1 (add_points roster e.player.name shot.score)
              rest (shots ++ [shot]) with
          | none => simp only [hp] at h; exact Option.noConfusion h
          | some t4 =>
              obtain ⟨m3, roster3, rest3, shots3⟩ := t4
              simp only [hp] at h
              simp only [Option.some.injEq, Prod.mk.injEq] at h
              obtain ⟨-, h2, -, -⟩ := h
              rw [← h2]
              exact roster_rel_trans
                (add_points_rel roster e.player.name shot.score (do_shot_spec hd).2)
                (ih _ _ _ _ _ _ _ hp)

theorem es_loop_rel :
    ∀ (fuel : ℕ) (m : Model) (roster : List Player) (tied : List PtsEntry)
      (shots : List Shot) (m' : Model) (roster' : List Player)
      (tied' : List PtsEntry) (shots' : List Shot),
      es_loop fuel m roster tied shots = some (m', roster', tied', shots') →
      roster_rel roster roster' := by
  intro fuel
  induction fuel with
  | zero => intro m roster tied shots m' roster' tied' shots' h; cases h
  | succ n ih =>
      intro m roster tied shots m' roster' tied' shots' h
      simp only [es_loop] at h
      by_cases hdist : all_points_distinct tied
      · rw [if_pos hdist] at h
        simp only [Option.some.injEq, Prod.mk.injEq] at h
        obtain ⟨-, h2, -, -⟩ := h
        rw [← h2]
        exact roster_rel_refl roster
      · rw [if_neg hdist] at h
        cases hp : es_pass m roster tied shots with
        | none => simp only [hp] at h; exact Option.noConfusion h
        | some t4 =>
            obtain ⟨m1, roster1, tied1, shots1⟩ := t4
            simp only [hp] at h
            exact roster_rel_trans (es_pass_rel _ _ _ _ _ _ _ _ hp)
              (ih _ _ _ _ _ _ _ _ h)

theorem gse_rel {m : Model} {players : List Player} {lv : List LuckValue}
    {rounds : List Round} {shots : List Shot} {evs : List EnduranceValue}
    {m' : Model} {players' : List Player}
    (h : generate_shots_and_endurance_values m players lv rounds =
      some (shots, evs, m', players')) :
    roster_rel players players' := by
  unfold generate_shots_and_endurance_values at h
  cases h1 : phase1_loop m players rounds [] [] [] with
  | none => simp only [h1] at h; exact Option.noConfusion h
  | some t5 =>
      obtain ⟨m1, players1, shots1, evsv, pts⟩ := t5
      simp only [h1] at h
      cases h2 : lucky_players players1 lv rounds with
      | none => simp only [h2] at h; exact Option.noConfusion h
      | some luckiest =>
          simp only [h2] at h
          cases h3 : special_shots_loop m1 players1 luckiest ShotType.LS shots1 with
          | none => simp only [h3] at h; exact Option.noConfusion h
          | some t3 =>
              obtain ⟨m2, players2, shots2⟩ := t3
              simp only [h3] at h
              have hrel12 : roster_rel players players2 :=
                roster_rel_trans (phase1_loop_rel _ _ _ _ _ _ _ _ _ _ _ h1)
                  (special_shots_loop_rel _ _ _ _ _ _ _ _ h3)
              by_cases hr2 : 2 ≤ rounds.length
              · rw [if_pos hr2] at h
                cases h4 : advantage_shots_loop m2 players2 players2
                    (rounds.drop (rounds.length - 2)) shots2 with
                | none => simp only [h4] at h; exact Option.noConfusion h
                | some t3b =>
                    obtain ⟨m3, players3, shots3⟩ := t3b
                    simp only [h4] at h
                    have hrel13 : roster_rel players players3 :=
                      roster_rel_trans hrel12
                        (advantage_shots_loop_rel _ _ _ _ _ _ _ _ h4)
                    cases h5 : py_max (pts.map (fun e => e.points)) with
                    | none => simp only [h5] at h; exact Option.noConfusion h
                    | some max_pts =>
                        simp only [h5] at h
                        by_cases h6 : 1 <
                            (pts.filter (fun e => decide (e.points = max_pts))).length
                        · rw [if_pos h6] at h
                          cases h7 : es_loop (m3.numbers.length - m3.current + 1)
                              m3 players3
                              (pts.filter (fun e => decide (e.points = max_pts)))
                              shots3 with
                          | none => simp only [h7] at h; exact Option.noConfusion h
                          | some t4 =>
                              obtain ⟨m4, players4, tied4, shots4⟩ := t4
                              simp only [h7] at h
                              simp only [Option.some.injEq, Prod.mk.injEq] at h
                              obtain ⟨-, -, -, h8⟩ := h
                              rw [← h8]
                              exact roster_rel_trans hrel13
                                (es_loop_rel _ _ _ _ _ _ _ _ _ h7)
                        · rw [if_neg h6] at h
                          simp only [Option.some.injEq, Prod.mk.injEq] at h
                          obtain ⟨-, -, -, h8⟩ := h
                          rw [← h8]
                          exact hrel13
              · rw [if_neg hr2] at h
                cases h5 : py_max (pts.map (fun e => e.points)) with
                | none => simp only [h5] at h; exact Option.noConfusion h
                | some max_pts =>
                    simp only [h5] at h
                    by_cases h6 : 1 <
                        (pts.filter (fun e => decide (e.points = max_pts))).length
                    · rw [if_pos h6] at h
                      cases h7 : es_loop (m2.numbers.length - m2.current + 1)
                          m2 players2
                          (pts.filter (fun e => decide (e.points = max_pts)))
                          shots2 with
                      | none => simp only [h7] at h; exact Option.noConfusion h
                      | some t4 =>
                          obtain ⟨m4, players4, tied4, shots4⟩ := t4
                          simp only [h7] at h
                          simp only [Option.some.injEq, Prod.mk.injEq] at h
                          obtain ⟨-, -, -, h8⟩ := h
                          rw [← h8]
                          exact roster_rel_trans hrel12
                            (es_loop_rel _ _ _ _ _ _ _ _ _ h7)
                    · rw [if_neg h6] at h
                      simp only [Option.some.injEq, Prod.mk.injEq] at h
                      obtain ⟨-, -, -, h8⟩ := h
                      rw [← h8]
                      exact hrel12

theorem calculate_winner_rel {players : List Player} {shots : List Shot}
    {wp : Player} {wt : Option Team} {players' : List Player}
    (h : calculate_winner players shots = some (wp, wt, players')) :
    players'.length = players.length ∧
    ∀ (j : ℕ) (p q : Player), players[j]? = some p → players'[j]? = some q →
      q.total_points = p.total_points ∧ q.name = p.name ∧
      (q.experience = p.experience ∨
        (q.experience = p.experience + 3 ∧ p.name = wp.name)) := by
  unfold calculate_winner at h
  cases h1 : calculate_winner_loop players shots 0 0
      (players.map (fun p => ⟨p, 0⟩)) with
  | none => simp only [h1] at h; exact Option.noConfusion h
  | some t3 =>
      obtain ⟨ta, tb, pts⟩ := t3
      simp only [h1] at h
      cases h2 : py_max (pts.map (fun e => e.points)) with
      | none => simp only [h2] at h; exact Option.noConfusion h
      | some mx =>
          simp only [h2] at h
          cases h3 : (pts.filter (fun e => decide (e.points = mx))).head? with
          | none => simp only [h3] at h; exact Option.noConfusion h
          | some w =>
              simp only [h3] at h
              cases h4 : add_experience players w.player.name with
              | none => simp only [h4] at h; exact Option.noConfusion h
              | some ps2 =>
                  simp only [h4, Option.some.injEq, Prod.mk.injEq] at h
                  obtain ⟨hwp, -, hps⟩ := h
                  subst hwp
                  subst hps
                  obtain ⟨i, pi, hgi, hni, hlen, hbump, hother⟩ :=
                    add_experience_spec players _ ps2 h4
                  refine ⟨hlen, ?_⟩
                  intro j p q hp hq
                  by_cases hji : j = i
                  · subst hji
                    rw [hgi] at hp
                    injection hp with hp2
                    subst hp2
                    rw [hbump] at hq
                    injection hq with hq2
                    rw [← hq2]
                    exact ⟨rfl, rfl, Or.inr ⟨rfl, hni⟩⟩
                  · rw [hother j hji, hp] at hq
                    injection hq with hq2
                    rw [← hq2]
                    exact ⟨rfl, rfl, Or.inl rfl⟩

theorem playRound_rel {m : Model} {players : List Player} {lv : List LuckValue}
    {rounds : List Round} {rd : Round} {m' : Model} {players' : List Player}
    (h : playRound m players lv rounds = some (rd, m', players')) :
    players'.length = players.length ∧
    ∀ (j : ℕ) (p q : Player), players[j]? = some p → players'[j]? = some q →
      p.total_points ≤ q.total_points ∧
      (q.experience = p.experience ∨
        (q.experience = p.experience + 3 ∧ p.name = rd.winner_player.name)) := by
  unfold playRound at h
  cases h1 : generate_shots_and_endurance_values m players lv rounds with
  | none => simp only [h1] at h; exact Option.noConfusion h
  | some t4 =>
      obtain ⟨shots, evs, m1, ps1⟩ := t4
      simp only [h1] at h
      cases h2 : calculate_winner ps1 shots with
      | none => simp only [h2] at h; exact Option.noConfusion h
      | some t3 =>
          obtain ⟨wp, wt, ps2⟩ := t3
          simp only [h2, Option.some.injEq, Prod.mk.injEq] at h
          obtain ⟨hrd, -, hps⟩ := h
          subst hps
          have hrel1 := gse_rel h1
          obtain ⟨hlen2, hrel2⟩ := calculate_winner_rel h2
          have hwinner : rd.winner_player = wp := by rw [← hrd]
          constructor
          · rw [hlen2, hrel1.1]
          · intro j p q hp hq
            have hj1 : j < ps1.length := by
              have := getElem?_some_lt hp
              have := hrel1.1
              omega
            obtain ⟨pm, hpm⟩ : ∃ pm, ps1[j]? = some pm :=
              ⟨ps1[j], List.getElem?_eq_getElem hj1⟩
            obtain ⟨f1, f2, f3, f4, f5, f6⟩ := hrel1.2 j p pm hp hpm
            obtain ⟨g1, g2, g3⟩ := hrel2 j pm q hpm hq
            constructor
            · rw [g1]
              exact f6
            · rcases g3 with g3 | ⟨g3a, g3b⟩
              · exact Or.inl (by rw [g3, f5])
              · exact Or.inr ⟨by rw [g3a, f5], by rw [hwinner, ← g3b, f1]⟩

theorem run_mono_refl (ps : List Player) : run_mono ps ps := by
  refine ⟨rfl, ?_⟩
  intro j p q h1 h2
  rw [h1] at h2
  injection h2 with h3
  rw [h3]
  exact ⟨le_refl _, le_refl _⟩

theorem run_mono_trans {ps qs rs : List Player} (h1 : run_mono ps qs)
    (h2 : run_mono qs rs) : run_mono ps rs := by
  refine ⟨h2.1.trans h1.1, ?_⟩
  intro j p r hp hr
  have hj : j < qs.length := by
    have hlt := getElem?_some_lt hp
    have hq1 := h1.1
    omega
  obtain ⟨q, hq⟩ : ∃ q, qs[j]? = some q := ⟨qs[j], List.getElem?_eq_getElem hj⟩
  obtain ⟨a1, a2⟩ := h1.2 j p q hp hq
  obtain ⟨b1, b2⟩ := h2.2 j q r hq hr
  exact ⟨a1.trans b1, a2.trans b2⟩

theorem playRounds_rel :
    ∀ (lvs : List (List LuckValue)) (m : Model) (ps : List Player)
      (rounds : List Round) (m' : Model) (ps' : List Player)
      (rounds' : List Round),
      playRounds m ps lvs rounds = some (m', ps', rounds') →
      run_mono ps ps' := by
  intro lvs
  induction lvs with
  | nil =>
      intro m ps rounds m' ps' rounds' h
      simp only [playRounds, Option.some.injEq, Prod.mk.injEq] at h
      obtain ⟨-, h2, -⟩ := h
      rw [← h2]
      exact run_mono_refl ps
  | cons lv rest ih =>
      intro m ps rounds m' ps' rounds' h
      simp only [playRounds] at h
      cases h1 : playRound m ps lv rounds with
      | none => simp only [h1] at h; exact Option.noConfusion h
      | some t3 =>
          obtain ⟨rd, m1, ps1⟩ := t3
          simp only [h1] at h
          obtain ⟨hlen1, hrel1⟩ := playRound_rel h1
          have hstep : run_mono ps ps1 := by
            refine ⟨hlen1, ?_⟩
            intro j p q hp hq
            obtain ⟨a1, a2⟩ := hrel1 j p q hp hq
            refine ⟨?_, a1⟩
            rcases a2 with a2 | ⟨a2, -⟩ <;> omega
          exact run_mono_trans hstep (ih _ _ _ _ _ _ h)

/-- C5: at every point of a run — after any sequence of rounds applied to
any starting roster — every player's `experience` and `total_points` are
non-decreasing; within one round the only experience change is `+3` and it
goes to the round's `winner_player`; and the shot scores, the only amounts
ever added to `total_points`, are never negative. -/
theorem claim_C5 :
    (∀ (lvs : List (List LuckValue)) (m : Model) (ps : List Player)
        (rounds : List Round) (m' : Model) (ps' : List Player)
        (rounds' : List Round),
      playRounds m ps lvs rounds = some (m', ps', rounds') →
      ps'.length = ps.length ∧
      ∀ (j : ℕ) (p q : Player), ps[j]? = some p → ps'[j]? = some q →
        p.experience ≤ q.experience ∧ p.total_points ≤ q.total_points) ∧
    (∀ (m : Model) (ps : List Player) (lv : List LuckValue)
        (rounds : List Round) (rd : Round) (m' : Model) (ps' : List Player),
      playRound m ps lv rounds = some (rd, m', ps') →
      ∀ (j : ℕ) (p q : Player), ps[j]? = some p → ps'[j]? = some q →
        p.total_points ≤ q.total_points ∧
        (q.experience = p.experience ∨
          (q.experience = p.experience + 3 ∧
            p.name = rd.winner_player.name))) ∧
    (∀ u : ℚ, 0 ≤ calculate_score_male u ∧ 0 ≤ calculate_score_female u) := by
  refine ⟨?_, ?_, ?_⟩
  · intro lvs m ps rounds m' ps' rounds' h
    exact playRounds_rel lvs m ps rounds m' ps' rounds' h
  · intro m ps lv rounds rd m' ps' h
    exact (playRound_rel h).2
  · intro u
    exact ⟨calculate_score_male_nonneg u, calculate_score_female_nonneg u⟩

/-- Witness for C5: one full concrete round (a one-player roster whose
endurance is exhausted, so no stream numbers are needed), plus the score
bound at `u = 0`. -/
theorem claim_C5_witness :
    (([(⟨0, teamA, true, 0, 13, 0⟩ : Player)]).length =
        ([(⟨0, teamA, true, 0, 10, 0⟩ : Player)]).length ∧
      ∀ (j : ℕ) (p q : Player),
        ([(⟨0, teamA, true, 0, 10, 0⟩ : Player)])[j]? = some p →
        ([(⟨0, teamA, true, 0, 13, 0⟩ : Player)])[j]? = some q →
        p.experience ≤ q.experience ∧ p.total_points ≤ q.total_points) ∧
    ((⟨0, teamA, true, 0, 10, 0⟩ : Player).total_points ≤
        (⟨0, teamA, true, 0, 13, 0⟩ : Player).total_points ∧
      ((⟨0, teamA, true, 0, 13, 0⟩ : Player).experience =
          (⟨0, teamA, true, 0, 10, 0⟩ : Player).experience ∨
        ((⟨0, teamA, true, 0, 13, 0⟩ : Player).experience =
            (⟨0, teamA, true, 0, 10, 0⟩ : Player).experience + 3 ∧
          (⟨0, teamA, true, 0, 10, 0⟩ : Player).name =
            (⟨1, [], [⟨⟨1, teamB, true, 0, 10, 0⟩, 0⟩,
              ⟨⟨1, teamB, true, 0, 10, 0⟩, 0⟩],
              [⟨⟨0, teamA, true, 0, 10, 0⟩, 0⟩], ⟨0, teamA, true, 0, 10, 0⟩,
              none⟩ : Round).winner_player.name))) ∧
    (0 ≤ calculate_score_male 0 ∧ 0 ≤ calculate_score_female 0) := by
  refine ⟨?_, ?_, ?_⟩
  · exact claim_C5.1
      [[⟨⟨1, teamB, true, 0, 10, 0⟩, 0⟩, ⟨⟨1, teamB, true, 0, 10, 0⟩, 0⟩]]
      ⟨[], 0⟩ [⟨0, teamA, true, 0, 10, 0⟩] [] ⟨[], 0⟩
      [⟨0, teamA, true, 0, 13, 0⟩]
      [⟨1, [], [⟨⟨1, teamB, true, 0, 10, 0⟩, 0⟩, ⟨⟨1, teamB, true, 0, 10, 0⟩, 0⟩],
        [⟨⟨0, teamA, true, 0, 10, 0⟩, 0⟩], ⟨0, teamA, true, 0, 10, 0⟩, none⟩] rfl
  · exact claim_C5.2.1 ⟨[], 0⟩ [⟨0, teamA, true, 0, 10, 0⟩]
      [⟨⟨1, teamB, true, 0, 10, 0⟩, 0⟩, ⟨⟨1, teamB, true, 0, 10, 0⟩, 0⟩] []
      (⟨1, [], [⟨⟨1, teamB, true, 0, 10, 0⟩, 0⟩, ⟨⟨1, teamB, true, 0, 10, 0⟩, 0⟩],
        [⟨⟨0, teamA, true, 0, 10, 0⟩, 0⟩], ⟨0, teamA, true, 0, 10, 0⟩, none⟩)
      ⟨[], 0⟩ [⟨0, teamA, true, 0, 13, 0⟩] rfl 0
      ⟨0, teamA, true, 0, 10, 0⟩ ⟨0, teamA, true, 0, 13, 0⟩ (by simp) (by simp)
  · exact claim_C5.2.2 0

/-! ### Claim C8 -/

theorem intervals_k_ten : intervals_k 10 = 4 := by
  unfold intervals_k pyIntR
  have h10 : ((10 : ℕ) : ℝ) = (10 : ℝ) := by norm_num
  rw [h10, Real.logb_self_eq_one (by norm_num)]
  rw [if_neg (by norm_num : ¬ ((1 : ℝ) + 3.322 * 1 < 0))]
  norm_num [Int.floor_eq_iff]

theorem intervals_k_ceil_ten : intervals_k_ceil 10 = 5 := by
  unfold intervals_k_ceil
  have h10 : ((10 : ℕ) : ℝ) = (10 : ℝ) := by norm_num
  rw [h10, Real.logb_self_eq_one (by norm_num)]
  norm_num [Int.ceil_eq_iff]

theorem intervals_k_floor_pos (n : ℕ) (hn : 1 ≤ n) :
    intervals_k n = ⌊(1 : ℝ) + 3.322 * Real.logb 10 (n : ℝ)⌋ ∧
    1 ≤ intervals_k n := by
  have hlog : 0 ≤ Real.logb 10 (n : ℝ) :=
    Real.logb_nonneg (by norm_num) (by exact_mod_cast hn)
  have hfloor : intervals_k n = ⌊(1 : ℝ) + 3.322 * Real.logb 10 (n : ℝ)⌋ := by
    unfold intervals_k pyIntR
    rw [if_neg]
    push_neg
    nlinarith
  refine ⟨hfloor, ?_⟩
  rw [hfloor]
  apply Int.le_floor.mpr
  push_cast
  nlinarith

theorem linspace_getD (lo hi : ℚ) (k : ℕ) (i : ℕ) (h : i < k + 1) :
    (linspace lo hi (k + 1)).getD i 0 = lo + (hi - lo) * i / (k : ℚ) := by
  unfold linspace
  rw [List.getD_eq_getElem?_getD, List.getElem?_map, List.getElem?_range h]
  simp

theorem linspace_nodup (lo hi : ℚ) (k : ℕ) (hk : 1 ≤ k) (hlt : lo < hi) :
    (linspace lo hi (k + 1)).Nodup := by
  unfold linspace
  refine List.Nodup.map ?_ (List.nodup_range (k + 1))
  intro i j hij
  have hd : ((k + 1 - 1 : ℕ) : ℚ) = (k : ℚ) := by norm_num
  rw [hd] at hij
  have hkq : ((k : ℕ) : ℚ) ≠ 0 := Nat.cast_ne_zero.mpr (by omega)
  have hdif : hi - lo ≠ 0 := sub_ne_zero.mpr (ne_of_gt hlt)
  have h3 : (hi - lo) * (i : ℚ) / ((k : ℕ) : ℚ) =
      (hi - lo) * (j : ℚ) / ((k : ℕ) : ℚ) := by linarith
  field_simp at h3
  rcases h3 with h | h
  · exact_mod_cast h
  · exact absurd h hdif

theorem generate_intervals_k_spec (k : ℕ) (nums : List ℚ) (lo hi : ℚ)
    (hk : 1 ≤ k) (hlo : py_min nums = some lo) (hhi : py_max nums = some hi)
    (hlt : lo < hi) :
    generate_intervals_k k nums =
      some ((List.range k).map (fun i =>
          ((linspace lo hi (k + 1)).getD i 0,
           (linspace lo hi (k + 1)).getD (i + 1) 0)),
        (List.range k).map (fun i =>
          bin_count nums ((linspace lo hi (k + 1)).getD i 0)
            ((linspace lo hi (k + 1)).getD (i + 1) 0) (decide (i = 0)))) := by
  unfold generate_intervals_k
  simp only [hlo, hhi]
  rw [if_pos (linspace_nodup lo hi k hk hlt)]

theorem generate_intervals_k_degenerate (k : ℕ) (nums : List ℚ) (c : ℚ)
    (hk : 1 ≤ k) (hlo : py_min nums = some c) (hhi : py_max nums = some c) :
    generate_intervals_k k nums = none := by
  unfold generate_intervals_k
  simp only [hlo, hhi]
  have hnotnodup : ¬ (linspace c c (k + 1)).Nodup := by
    intro hnd
    have hrep : linspace c c (k + 1) = List.replicate (k + 1) c := by
      apply List.eq_replicate_iff.mpr
      refine ⟨by simp [linspace], ?_⟩
      intro b hb
      unfold linspace at hb
      obtain ⟨i, hi2, hbi⟩ := List.mem_map.mp hb
      rw [← hbi]
      simp
    rw [hrep, List.nodup_replicate] at hnd
    omega
  rw [if_neg hnotnodup]

/-- C8 counterexample: on ten values, the code's `int(1 + 3.322·log10 10)`
gives 4 bins, while the claimed `⌈1 + 3.322·log10 10⌉` is 5. -/
theorem claim_C8_cex :
    ∃ (inters : List (ℚ × ℚ)) (frecs : List ℕ),
      generate_intervals [0, 1, 2, 3, 4, 5, 6, 7, 8, 9] = some (inters, frecs) ∧
      (inters.length : ℤ) = 4 ∧ intervals_k_ceil 10 = 5 ∧
      (inters.length : ℤ) ≠ intervals_k_ceil 10 := by
  have hlo : py_min ([0, 1, 2, 3, 4, 5, 6, 7, 8, 9] : List ℚ) =
      some (([1, 2, 3, 4, 5, 6, 7, 8, 9] : List ℚ).foldl min 0) := rfl
  have hhi : py_max ([0, 1, 2, 3, 4, 5, 6, 7, 8, 9] : List ℚ) =
      some (([1, 2, 3, 4, 5, 6, 7, 8, 9] : List ℚ).foldl max 0) := rfl
  have h0 : ([1, 2, 3, 4, 5, 6, 7, 8, 9] : List ℚ).foldl min 0 ≤ 0 :=
    py_min_le hlo 0 (List.mem_cons_self 0 _)
  have h9 : (9 : ℚ) ≤ ([1, 2, 3, 4, 5, 6, 7, 8, 9] : List ℚ).foldl max 0 :=
    py_max_le hhi 9 (by norm_num)
  have hlt : ([1, 2, 3, 4, 5, 6, 7, 8, 9] : List ℚ).foldl min 0 <
      ([1, 2, 3, 4, 5, 6, 7, 8, 9] : List ℚ).foldl max 0 := by linarith
  have hgen : generate_intervals [0, 1, 2, 3, 4, 5, 6, 7, 8, 9] =
      generate_intervals_k 4 [0, 1, 2, 3, 4, 5, 6, 7, 8, 9] := by
    unfold generate_intervals
    rw [show ([0, 1, 2, 3, 4, 5, 6, 7, 8, 9] : List ℚ).length = 10 from rfl,
      intervals_k_ten]
    rfl
  have hcalc := generate_intervals_k_spec 4 [0, 1, 2, 3, 4, 5, 6, 7, 8, 9] _ _
    (by norm_num) hlo hhi hlt
  refine ⟨_, _, by rw [hgen, hcalc], by simp, intervals_k_ceil_ten, ?_⟩
  rw [intervals_k_ceil_ten]
  simp only [List.length_map, List.length_range]
  norm_num

/-- C8 (amended): when the observed minimum of the candidate list is
strictly below its observed maximum, `generate_intervals` partitions the
observed range `[min, max]` into exactly `k = int(1 + 3.322·log10 n)` —
the TRUNCATED value, not the ceiling — equal-width bins, and `chi_2_test`
uses the expected frequency `n / k` for every one of those `k` bins; when
the minimum equals the maximum (a constant list), the bin edges collapse
and `pd.cut` raises `ValueError` on the duplicate edges, so no partition
is produced at all. -/
theorem claim_C8 :
    (∀ (nums : List ℚ) (lo hi : ℚ),
      py_min nums = some lo → py_max nums = some hi → lo < hi →
      ∃ (inters : List (ℚ × ℚ)) (frecs : List ℕ),
        generate_intervals nums = some (inters, frecs) ∧
        intervals_k nums.length =
          ⌊(1 : ℝ) + 3.322 * Real.logb 10 (nums.length : ℝ)⌋ ∧
        1 ≤ intervals_k nums.length ∧
        inters.length = (intervals_k nums.length).toNat ∧
        frecs.length = (intervals_k nums.length).toNat ∧
        (∀ pr ∈ inters,
          pr.2 - pr.1 = (hi - lo) / (((intervals_k nums.length).toNat : ℕ) : ℚ)) ∧
        chi_2_expected nums =
          some (List.replicate (intervals_k nums.length).toNat
            ((nums.length : ℚ) / (((intervals_k nums.length).toNat : ℕ) : ℚ)))) ∧
    (∀ (nums : List ℚ) (c : ℚ),
      py_min nums = some c → py_max nums = some c →
      generate_intervals nums = none) := by
  constructor
  · intro nums lo hi hlo hhi hlt
    have hne : nums ≠ [] := by
      intro h
      rw [h] at hlo
      simp [py_min] at hlo
    have hn1 : 1 ≤ nums.length := by
      cases nums with
      | nil => exact absurd rfl hne
      | cons a l => simp
    obtain ⟨hfloor, hk1⟩ := intervals_k_floor_pos nums.length hn1
    obtain ⟨K, hK⟩ : ∃ K : ℕ, (intervals_k nums.length).toNat = K := ⟨_, rfl⟩
    have hKpos : 1 ≤ K := by omega
    have hKQ : ((K : ℕ) : ℚ) ≠ 0 := Nat.cast_ne_zero.mpr (by omega)
    have hgen : generate_intervals nums = generate_intervals_k K nums := by
      unfold generate_intervals
      rw [hK]
    have hcalc := generate_intervals_k_spec K nums lo hi hKpos hlo hhi hlt
    refine ⟨_, _, by rw [hgen, hcalc], hfloor, hk1, by rw [hK]; simp,
      by rw [hK]; simp, ?_, ?_⟩
    · intro pr hpr
      rw [hK]
      obtain ⟨i, hi2, hpr2⟩ := List.mem_map.mp hpr
      have hiK : i < K := List.mem_range.mp hi2
      rw [← hpr2]
      simp only
      rw [linspace_getD _ _ _ _ (by omega), linspace_getD _ _ _ _ (by omega)]
      field_simp
      ring
    · unfold chi_2_expected
      rw [hgen, hcalc]
      simp only [Option.map_some']
      rw [Option.some.injEq]
      apply List.eq_replicate_iff.mpr
      constructor
      · simp only [List.length_map, List.length_range]
        exact hK.symm
      · intro b hb
        obtain ⟨i, hi2, hbi⟩ := List.mem_map.mp hb
        rw [← hbi]
        simp only [List.length_map, List.length_range, hK]
  · intro nums c hlo hhi
    have hne : nums ≠ [] := by
      intro h
      rw [h] at hlo
      simp [py_min] at hlo
    have hn1 : 1 ≤ nums.length := by
      cases nums with
      | nil => exact absurd rfl hne
      | cons a l => simp
    obtain ⟨hfloor, hk1⟩ := intervals_k_floor_pos nums.length hn1
    have hKpos : 1 ≤ (intervals_k nums.length).toNat := by omega
    unfold generate_intervals
    exact generate_intervals_k_degenerate _ nums c hKpos hlo hhi

/-- Witness for C8: the ten distinct values `0, 1, ..., 9` for the
partition branch, and the constant list `[1/2, 1/2]` for the
duplicate-edge error branch. -/
theorem claim_C8_witness :
    (∃ (inters : List (ℚ × ℚ)) (frecs : List ℕ),
      generate_intervals [0, 1, 2, 3, 4, 5, 6, 7, 8, 9] = some (inters, frecs) ∧
      intervals_k ([0, 1, 2, 3, 4, 5, 6, 7, 8, 9] : List ℚ).length =
        ⌊(1 : ℝ) + 3.322 *
          Real.logb 10 ((([0, 1, 2, 3, 4, 5, 6, 7, 8, 9] : List ℚ).length : ℕ) : ℝ)⌋ ∧
      1 ≤ intervals_k ([0, 1, 2, 3, 4, 5, 6, 7, 8, 9] : List ℚ).length ∧
      inters.length =
        (intervals_k ([0, 1, 2, 3, 4, 5, 6, 7, 8, 9] : List ℚ).length).toNat ∧
      frecs.length =
        (intervals_k ([0, 1, 2, 3, 4, 5, 6, 7, 8, 9] : List ℚ).length).toNat ∧
      (∀ pr ∈ inters, pr.2 - pr.1 =
        (([1, 2, 3, 4, 5, 6, 7, 8, 9] : List ℚ).foldl max 0 -
         ([1, 2, 3, 4, 5, 6, 7, 8, 9] : List ℚ).foldl min 0) /
        ((((intervals_k ([0, 1, 2, 3, 4, 5, 6, 7, 8, 9] : List ℚ).length).toNat : ℕ)
          : ℚ))) ∧
      chi_2_expected [0, 1, 2, 3, 4, 5, 6, 7, 8, 9] =
        some (List.replicate
          (intervals_k ([0, 1, 2, 3, 4, 5, 6, 7, 8, 9] : List ℚ).length).toNat
          ((([0, 1, 2, 3, 4, 5, 6, 7, 8, 9] : List ℚ).length : ℚ) /
            ((((intervals_k ([0, 1, 2, 3, 4, 5, 6, 7, 8, 9] : List ℚ).length).toNat
              : ℕ) : ℚ))))) ∧
    generate_intervals [(1 : ℚ) / 2, (1 : ℚ) / 2] = none :=
  ⟨claim_C8.1 [0, 1, 2, 3, 4, 5, 6, 7, 8, 9]
      (([1, 2, 3, 4, 5, 6, 7, 8, 9] : List ℚ).foldl min 0)
      (([1, 2, 3, 4, 5, 6, 7, 8, 9] : List ℚ).foldl max 0)
      rfl rfl
      (by
        have h0 : ([1, 2, 3, 4, 5, 6, 7, 8, 9] : List ℚ).foldl min 0 ≤ 0 :=
          py_min_le
            (show py_min ([0, 1, 2, 3, 4, 5, 6, 7, 8, 9] : List ℚ) =
              some (([1, 2, 3, 4, 5, 6, 7, 8, 9] : List ℚ).foldl min 0) from rfl)
            0 (List.mem_cons_self 0 _)
        have h9 : (9 : ℚ) ≤ ([1, 2, 3, 4, 5, 6, 7, 8, 9] : List ℚ).foldl max 0 :=
          py_max_le
            (show py_max ([0, 1, 2, 3, 4, 5, 6, 7, 8, 9] : List ℚ) =
              some (([1, 2, 3, 4, 5, 6, 7, 8, 9] : List ℚ).foldl max 0) from rfl)
            9 (by norm_num)
        linarith),
   claim_C8.2 [(1 : ℚ) / 2, (1 : ℚ) / 2] ((1 : ℚ) / 2)
      (by simp [py_min]) (by simp [py_max])⟩

end Montecarlo
